import Mathlib

/-!
# Jinja2Cpp statement rendering (`src/statements.cpp`)

A shallow embedding of the statement renderers of `statements.cpp`
(`ForStatement`, `IfStatement`, `ElseBranchStatement`, `SetStatement`,
`ParentBlockStatement`, `BlockStatement`, `ParentTemplateRenderer`,
`ExtendsStatement`) together with theorems about them.

Conventions of the embedding:

* `Render(OutStream& os, RenderContext& values)` becomes a function from the
  render context to the text appended to `os` and the render context
  afterwards.  The output sink is append-only and never read by a statement,
  so "the effect on `os`" is the appended text.
* An exception leaving a renderer (the expression evaluator is the only
  possible origin) is the `Except.error` result.  So is a call for which the
  code has no defined behaviour (through a pointer to a destroyed object, or a
  `static_cast` to `BlocksRenderer` of something else): no result is claimed
  for such a render.
* The expression evaluator, value conversions and the template loader are not
  part of `statements.cpp`; they are the fields of `Externals`.
* A `MapAdapter` made from the address of a local map (`&loopVar`) is a value
  `InternalValue.mapAdapter addr`; the maps so referenced live in
  `RenderContext.mapStore`, a store that only grows.
* A `RendererBase*` held in a value is a `RendererPtr`.  The
  `ParentTemplateRenderer` objects made by `std::make_shared` live in
  `RenderContext.objects` from their creation to their destruction; a pointer
  to a destroyed object stays what it is and refers to no object.
* Calls through a renderer obtained at run time (the loaded parent template,
  a block found in the registry) go through the `dyn` argument of
  `RenderWith`; `Render` ties the knot with a bound on the dispatch depth.
-/

namespace jinja2

/-- Handle of an expression node (`ExpressionEvaluatorPtr`).  Expression nodes
belong to the expression subsystem; a statement only holds the handle and asks
`Externals.Evaluate` for its value. -/
abbrev Expression := String

/-- Ways in which a render leaves without a result. -/
inductive RenderError where
  /-- an exception thrown by the expression evaluator -/
  | evaluation (what : String)
  /-- the bound on nested dynamic dispatch (parent templates, blocks) is used up -/
  | dispatchDepth
  /-- the `static_cast` to `BlocksRenderer` met an object that is not one -/
  | notBlocksRenderer
  /-- a call through a pointer whose object has been destroyed: the code has no
  defined behaviour from there on, and no result is claimed for it -/
  | destroyedObject
  deriving DecidableEq

mutual
/-- The statement tree.  `forStmt` .. `extendsStmt` are the classes rendered in
`statements.cpp`.  Modelled from the spec: the first three constructors, the
renderers a template is otherwise made of (literal text, an expression written
to the output, a list of statements executed in document order); their classes
are not in `statements.cpp`. -/
inductive Statement where
  /-- literal template text -/
  | rawText (text : String)
  /-- an expression whose value is written to the output -/
  | exprOutput (expr : Expression)
  /-- a sequence of renderers, rendered in order -/
  | composed (items : List Statement)
  /-- Embeds `ForStatement`: `m_vars`, `m_value`, `m_ifExpr`, `m_mainBody`, `m_elseBody` -/
  | forStmt (vars : List String) (value : Expression) (ifExpr : Option Expression)
      (mainBody : Statement) (elseBody : Option Statement)
  /-- Embeds `IfStatement`: `m_expr`, `m_mainBody`, `m_elseBranches` -/
  | ifStmt (expr : Expression) (mainBody : Statement)
      (elseBranches : List ElseBranchStatement)
  /-- Embeds `SetStatement`: `m_fields`, `m_expr` -/
  | setStmt (fields : List String) (expr : Option Expression)
  /-- Embeds `ParentBlockStatement`: `m_name`, `m_isScoped` -/
  | parentBlock (name : String) (isScoped : Bool)
  /-- Embeds `BlockStatement`: its name and `m_mainBody` -/
  | block (name : String) (mainBody : Statement)
  /-- Embeds `ExtendsStatement`: `m_templateName`, `m_isPath`, `m_blocks` -/
  | extendsStmt (templateName : String) (isPath : Bool)
      (blocks : List (String × Statement))
/-- Embeds `ElseBranchStatement`: `m_expr` (absent for a plain `else`) and `m_mainBody`. -/
inductive ElseBranchStatement where
  | mk (expr : Option Expression) (mainBody : Statement)
end

/-- What a `RendererBase*` stored in a value points to. -/
inductive RendererRef where
  /-- a `ParentTemplateRenderer` with its `m_template` (the loaded template's
  top-level renderer) and `m_blocks` -/
  | parentTemplateRenderer (template : Statement) (blocks : List (String × Statement))
  /-- a statement node (`this` of a `ParentBlockStatement`) -/
  | statement (node : Statement)

/-- A `RendererBase*` as a value holds it: a raw pointer, which does not keep
its object alive. -/
inductive RendererPtr where
  /-- the address of an object made by `std::make_shared<ParentTemplateRenderer>`
  (line 202), owned by the local `renderer` of `ExtendsStatement::Render` -/
  | object (addr : Nat)
  /-- a statement node of the template (`this` of a `ParentBlockStatement`);
  the nodes exist as long as their template is rendered -/
  | statement (node : Statement)

/-- The value variant, as far as the statements construct or inspect it. -/
inductive InternalValue where
  | empty
  | bool (b : Bool)
  | int (n : Int)
  | string (s : String)
  | list (items : List InternalValue)
  /-- Embeds `MapAdapter::CreateAdapter(&m)`: a mapping held by address -/
  | mapAdapter (addr : Nat)
  /-- a `RendererBase*` -/
  | renderer (target : RendererPtr)

/-- Embeds `InternalValueMap`: a mapping from names to values. -/
structure InternalValueMap where
  find : String → Option InternalValue

namespace InternalValueMap

/-- A map without entries. -/
def empty : InternalValueMap := ⟨fun _ => none⟩

/-- The assignment `m[key] = v`. -/
def set (m : InternalValueMap) (key : String) (v : InternalValue) : InternalValueMap :=
  ⟨fun k => if k = key then some v else m.find k⟩

/-- The call `m.erase(key)`. -/
def erase (m : InternalValueMap) (key : String) : InternalValueMap :=
  ⟨fun k => if k = key then none else m.find k⟩

end InternalValueMap

/-- Modelled from the spec: `RenderContext` (the scope chain), which
`statements.cpp` only uses.  `scopes` is the ordered sequence of scopes,
innermost last.  `mapStore` holds the maps that values refer to by address.
`objects` holds the `ParentTemplateRenderer` objects made so far, by address,
`none` standing for an object that has been destroyed. -/
structure RenderContext where
  scopes : List InternalValueMap
  mapStore : List InternalValueMap
  objects : List (Option RendererRef)

namespace RenderContext

/-- Modelled from the spec: `EnterScope` pushes an empty scope.  The result
carries the position of the new scope, standing for the returned reference. -/
def EnterScope (values : RenderContext) : Nat × RenderContext :=
  (values.scopes.length, { values with scopes := values.scopes ++ [InternalValueMap.empty] })

/-- Modelled from the spec: `ExitScope` pops the innermost scope and discards it. -/
def ExitScope (values : RenderContext) : RenderContext :=
  { values with scopes := values.scopes.dropLast }

/-- Modelled from the spec: `GetCurrentScope`, as the position of the innermost scope. -/
def GetCurrentScope (values : RenderContext) : Nat :=
  values.scopes.length - 1

/-- Modelled from the spec: `FindValue` walks from the innermost scope outwards
and returns the first binding found. -/
def FindValue (values : RenderContext) (name : String) : Option InternalValue :=
  values.scopes.reverse.findSome? (fun scope => scope.find name)

/-- Modelled from the spec: `Clone`.  With the flag set the clone has the scopes
of the original; without it the clone is rooted at the global scope only.  The
clone is a context of its own: `innerContext` is a local object of the caller. -/
def Clone (values : RenderContext) (includeCurrentContext : Bool) : RenderContext :=
  if includeCurrentContext then values else { values with scopes := values.scopes.take 1 }

/-- The assignment `scope[name] = v` through a reference to the scope at `scopeIdx`. -/
def assign (values : RenderContext) (scopeIdx : Nat) (name : String) (v : InternalValue) :
    RenderContext :=
  { values with scopes := values.scopes.modify (fun scope => scope.set name v) scopeIdx }

/-- The scope at a position of the chain (empty beyond the chain). -/
def scopeAt (values : RenderContext) (scopeIdx : Nat) : InternalValueMap :=
  values.scopes.getD scopeIdx InternalValueMap.empty

/-- A local `InternalValueMap` comes into existence; the result carries its address. -/
def newMap (values : RenderContext) : Nat × RenderContext :=
  (values.mapStore.length, { values with mapStore := values.mapStore ++ [InternalValueMap.empty] })

/-- An update of the map at an address. -/
def updateMap (values : RenderContext) (addr : Nat) (f : InternalValueMap → InternalValueMap) :
    RenderContext :=
  { values with mapStore := values.mapStore.modify f addr }

/-- The map at an address. -/
def mapAt (values : RenderContext) (addr : Nat) : InternalValueMap :=
  values.mapStore.getD addr InternalValueMap.empty

/-- An object comes into existence (`std::make_shared`); the result carries its address. -/
def newObject (values : RenderContext) (obj : RendererRef) : Nat × RenderContext :=
  (values.objects.length, { values with objects := values.objects ++ [some obj] })

/-- The object at an address is destroyed (its last owner goes out of scope). -/
def destroyObject (values : RenderContext) (addr : Nat) : RenderContext :=
  { values with objects := values.objects.set addr none }

/-- The object at an address; `none` when there is no object there (any more). -/
def objectAt (values : RenderContext) (addr : Nat) : Option RendererRef :=
  values.objects.getD addr none

/-- What a pointer refers to; `none` when its object has been destroyed. -/
def deref (values : RenderContext) : RendererPtr → Option RendererRef
  | .object addr => values.objectAt addr
  | .statement node => some (.statement node)

end RenderContext

/-- The collaborators of `statements.cpp` that live elsewhere: the expression
evaluator, the value conversions and the template loader. -/
structure Externals where
  /-- Embeds `expr->Evaluate(values)` -/
  Evaluate : Expression → RenderContext → Except RenderError InternalValue
  /-- Embeds `ConvertToList(val, InternalValue(), isConverted)`; `none` is `isConverted == false` -/
  ConvertToList : InternalValue → Option (List InternalValue)
  /-- Embeds `Subscript(val, name)` -/
  Subscript : InternalValue → String → InternalValue
  /-- Embeds `ConvertToBool(val)` -/
  ConvertToBool : InternalValue → Bool
  /-- Embeds `Apply<visitors::BooleanEvaluator>(val)` -/
  BooleanEvaluator : InternalValue → Bool
  /-- the text an expression renderer writes for a value -/
  ValueToText : InternalValue → String
  /-- Embeds `GetRendererCallback()->LoadTemplate(name)`; `none` is the `EmptyValue` alternative -/
  LoadTemplate : String → Option Statement

/-- The result of a render: the text appended to the output and the context afterwards. -/
abbrev RenderResult := Except RenderError (String × RenderContext)

/-- A renderer: `Render(os, values)` of some `RendererBase`. -/
abbrev Renderer := RenderContext → RenderResult

/-- Embeds `ListAdapter::GetValueByIndex`. -/
def GetValueByIndex (items : List InternalValue) (idx : Nat) : InternalValue :=
  items.getD idx InternalValue.empty

namespace ForStatement

/-- Lines 29-35 and 63-69: bind the loop variables in the scope `scopeIdx`.
`m_vars[0]` of an empty `m_vars` does not occur (the parser supplies a name);
nothing is bound then. -/
def bindVars (E : Externals) (vars : List String) (scopeIdx : Nat) (curValue : InternalValue)
    (values : RenderContext) : RenderContext :=
  if vars.length > 1 then
    vars.foldl (fun vs varName => vs.assign scopeIdx varName (E.Subscript curValue varName)) values
  else
    match vars.head? with
    | some varName => values.assign scopeIdx varName curValue
    | none => values

/-- Lines 27-39: the loop over the candidates, `newLoopItems` being the
elements retained so far and `tempIdx` the scope `tempContext`. -/
def filterItems (E : Externals) (vars : List String) (ifExpr : Expression) (tempIdx : Nat) :
    List InternalValue → List InternalValue → RenderContext →
      Except RenderError (List InternalValue × RenderContext)
  | [], newLoopItems, values => .ok (newLoopItems, values)
  | curValue :: rest, newLoopItems, values =>
    let values1 := bindVars E vars tempIdx curValue values
    match E.Evaluate ifExpr values1 with
    | .error e => .error e
    | .ok v =>
      filterItems E vars ifExpr tempIdx rest
        (if E.ConvertToBool v then newLoopItems ++ [curValue] else newLoopItems) values1

/-- The state of `ForStatement::Render` at line 47: the items to iterate, the
scope `context`, the address of `loopVar` and the render context. -/
structure LoopSetup where
  loopItems : List InternalValue
  scopeIdx : Nat
  loopAddr : Nat
  values : RenderContext

/-- Lines 11-46.  `Sum.inl` is the early return of line 21 with the context it
leaves behind; `Sum.inr` is the state in which the main loop starts. -/
def prepare (E : Externals) (vars : List String) (value : Expression)
    (ifExpr : Option Expression) (values : RenderContext) :
    Except RenderError (RenderContext ⊕ LoopSetup) :=
  match E.Evaluate value values with
  | .error e => .error e
  | .ok loopVal =>
    let (scopeIdx, values1) := values.EnterScope
    let (loopAddr, values2) := values1.newMap
    let values3 := values2.assign scopeIdx "loop" (.mapAdapter loopAddr)
    match E.ConvertToList loopVal with
    | none => .ok (.inl values3)
    | some loopItems =>
      let filtered : Except RenderError (List InternalValue × RenderContext) :=
        match ifExpr with
        | some g =>
          let (tempIdx, values4) := values3.EnterScope
          match filterItems E vars g tempIdx loopItems [] values4 with
          | .error e => .error e
          | .ok (newLoopItems, values5) => .ok (newLoopItems, values5.ExitScope)
        | none => .ok (loopItems, values3)
      match filtered with
      | .error e => .error e
      | .ok (items, values6) =>
        let itemsNum : Int := items.length
        .ok (.inr
          { loopItems := items, scopeIdx := scopeIdx, loopAddr := loopAddr,
            values := values6.updateMap loopAddr (fun loopVar => loopVar.set "length" (.int itemsNum)) })

/-- Lines 51-60: the update of `loopVar` at the start of iteration `itemIdx`.
`itemsNum` and `itemIdx` are `int64_t` in the source; a list has fewer than
`2^63` elements, so no arithmetic here wraps. -/
def updateLoopVar (loopItems : List InternalValue) (itemIdx : Nat) (loopVar : InternalValueMap) :
    InternalValueMap :=
  let itemsNum : Int := loopItems.length
  let idx : Int := itemIdx
  let loopVar1 := loopVar.set "index" (.int (idx + 1))
  let loopVar2 := loopVar1.set "index0" (.int idx)
  let loopVar3 := loopVar2.set "first" (.bool (idx == 0))
  let loopVar4 := loopVar3.set "last" (.bool (idx == itemsNum - 1))
  let loopVar5 :=
    if idx != 0 then loopVar4.set "previtem" (GetValueByIndex loopItems (itemIdx - 1))
    else loopVar4
  if idx != itemsNum - 1 then loopVar5.set "nextitem" (GetValueByIndex loopItems (itemIdx + 1))
  else loopVar5.erase "nextitem"

/-- Lines 50-69: what iteration `itemIdx` does before it renders the body. -/
def enterIteration (E : Externals) (vars : List String) (s : LoopSetup) (itemIdx : Nat)
    (values : RenderContext) : RenderContext :=
  bindVars E vars s.scopeIdx (GetValueByIndex s.loopItems itemIdx)
    (values.updateMap s.loopAddr (updateLoopVar s.loopItems itemIdx))

/-- Lines 48-72: the main loop, with `steps` iterations to go from `itemIdx`
(the loop starts with `steps = itemsNum` and `itemIdx = 0`). -/
def mainLoop (E : Externals) (body : Renderer) (vars : List String) (s : LoopSetup) :
    Nat → Nat → RenderContext → RenderResult
  | 0, _, values => .ok ("", values)
  | steps + 1, itemIdx, values =>
    match body (enterIteration E vars s itemIdx values) with
    | .error e => .error e
    | .ok (out, values1) =>
      match mainLoop E body vars s steps (itemIdx + 1) values1 with
      | .error e => .error e
      | .ok (rest, values2) => .ok (out ++ rest, values2)

/-- Embeds `ForStatement::Render`, given the renderers of `m_mainBody` and `m_elseBody`.
`loopRendered` is true exactly when the loop ran, that is when there is an item. -/
def Render (E : Externals) (body : Renderer) (elseBody : Option Renderer) (vars : List String)
    (value : Expression) (ifExpr : Option Expression) (values : RenderContext) : RenderResult :=
  match prepare E vars value ifExpr values with
  | .error e => .error e
  | .ok (.inl values1) => .ok ("", values1)
  | .ok (.inr s) =>
    match mainLoop E body vars s s.loopItems.length 0 s.values with
    | .error e => .error e
    | .ok (out, values1) =>
      let loopRendered : Bool := s.loopItems.length != 0
      match (if !loopRendered then elseBody else none) with
      | some renderElse =>
        match renderElse values1 with
        | .error e => .error e
        | .ok (out2, values2) => .ok (out ++ out2, values2.ExitScope)
      | none => .ok (out, values1.ExitScope)

end ForStatement

namespace ElseBranchStatement

/-- Embeds `ElseBranchStatement::ShouldRender`. -/
def ShouldRender (E : Externals) (expr : Option Expression) (values : RenderContext) :
    Except RenderError Bool :=
  match expr with
  | none => .ok true
  | some e =>
    match E.Evaluate e values with
    | .error err => .error err
    | .ok v => .ok (E.BooleanEvaluator v)

/-- Embeds `ElseBranchStatement::Render`, given the renderer of `m_mainBody`. -/
def Render (mainBody : Renderer) (values : RenderContext) : RenderResult :=
  mainBody values

end ElseBranchStatement

namespace IfStatement

/-- Lines 91-98 of `IfStatement::Render`: the loop over `m_elseBranches`, each
branch given by its guard and its renderer. -/
def renderElseBranches (E : Externals) : List (Option Expression × Renderer) → Renderer
  | [], values => .ok ("", values)
  | (expr, render) :: rest, values =>
    match ElseBranchStatement.ShouldRender E expr values with
    | .error e => .error e
    | .ok true => render values
    | .ok false => renderElseBranches E rest values

/-- Embeds `IfStatement::Render`, given the renderer of `m_mainBody` and the
guards and renderers of `m_elseBranches`. -/
def Render (E : Externals) (expr : Expression) (mainBody : Renderer)
    (elseBranches : List (Option Expression × Renderer)) (values : RenderContext) :
    RenderResult :=
  match E.Evaluate expr values with
  | .error e => .error e
  | .ok val =>
    if E.BooleanEvaluator val then mainBody values
    else renderElseBranches E elseBranches values

end IfStatement

namespace BlockStatement

/-- Embeds `BlockStatement::Render`, given the renderer of `m_mainBody`. -/
def Render (mainBody : Renderer) (values : RenderContext) : RenderResult :=
  mainBody values

end BlockStatement

namespace SetStatement

/-- Embeds `SetStatement::Render`. -/
def Render (E : Externals) (fields : List String) (expr : Option Expression)
    (values : RenderContext) : RenderResult :=
  match expr with
  | none => .ok ("", values)
  | some e =>
    match E.Evaluate e values with
    | .error err => .error err
    | .ok val =>
      match fields with
      | [name] => .ok ("", values.assign values.GetCurrentScope name val)
      | _ =>
        .ok ("", fields.foldl
          (fun vs name => vs.assign vs.GetCurrentScope name (E.Subscript val name)) values)

end SetStatement

namespace ParentTemplateRenderer

/-- Embeds `ParentTemplateRenderer::RenderBlock`, for the object a `BlocksRenderer*`
points to; `dyn` renders the block found. -/
def RenderBlock (dyn : Statement → Renderer) (target : RendererRef) (blockName : String)
    (values : RenderContext) : RenderResult :=
  match target with
  | .parentTemplateRenderer _ blocks =>
    match blocks.lookup blockName with
    | none => .ok ("", values)
    | some blockStmt => dyn blockStmt values
  | .statement _ => .error .notBlocksRenderer

/-- Embeds `ParentTemplateRenderer::Render` of the object at the address `self`,
whose `m_template` is `template`; `dyn` renders the loaded template. -/
def Render (dyn : Statement → Renderer) (self : Nat) (template : Statement)
    (values : RenderContext) : RenderResult :=
  dyn template
    (values.assign values.GetCurrentScope "$$__parent_template" (.renderer (.object self)))

end ParentTemplateRenderer

namespace ParentBlockStatement

/-- Embeds `ParentBlockStatement::Render`.  `innerContext` is discarded at the end;
the caller's context keeps its scopes.  The call `blockRenderer->RenderBlock`
(line 151) goes through the pointer found under `$$__parent_template`. -/
def Render (dyn : Statement → Renderer) (name : String) (isScoped : Bool)
    (values : RenderContext) : RenderResult :=
  let innerContext := values.Clone isScoped
  match values.FindValue "$$__parent_template" with
  | none => .ok ("", values)
  | some (.renderer ptr) =>
    let (scopeIdx, inner1) := innerContext.EnterScope
    let inner2 := inner1.assign scopeIdx "$$__super_block"
      (.renderer (.statement (.parentBlock name isScoped)))
    match values.deref ptr with
    | none => .error .destroyedObject
    | some target =>
      match ParentTemplateRenderer.RenderBlock dyn target name inner2 with
      | .error e => .error e
      | .ok (out, inner3) =>
        .ok (out, { values with mapStore := inner3.ExitScope.mapStore,
                                objects := inner3.ExitScope.objects })
  | some _ => .ok ("", values)

end ParentBlockStatement

namespace ExtendsStatement

/-- Embeds `ExtendsStatement::Render` with `TemplateImplVisitor`.  The
`ParentTemplateRenderer` is made at line 219 and owned by the local `renderer`
alone (`ParentTemplateRenderer::Render` stores the raw `this`), so it is
destroyed when the function returns. -/
def Render (E : Externals) (dyn : Statement → Renderer) (templateName : String) (isPath : Bool)
    (blocks : List (String × Statement)) (values : RenderContext) : RenderResult :=
  if !isPath then .ok ("", values)
  else
    match E.LoadTemplate templateName with
    | none => .ok ("", values)
    | some template =>
      let (self, values1) := values.newObject (.parentTemplateRenderer template blocks)
      match ParentTemplateRenderer.Render dyn self template values1 with
      | .error e => .error e
      | .ok (out, values2) => .ok (out, values2.destroyObject self)

end ExtendsStatement

mutual
/-- The virtual call `renderer->Render(os, values)` on a statement node.  `dyn`
renders statements that are reached through a run-time reference. -/
def RenderWith (E : Externals) (dyn : Statement → Renderer) : Statement → Renderer
  | .rawText text, values => .ok (text, values)
  | .exprOutput expr, values =>
    match E.Evaluate expr values with
    | .error e => .error e
    | .ok v => .ok (E.ValueToText v, values)
  | .composed items, values => RenderList E dyn items values
  | .forStmt vars value ifExpr mainBody elseBody, values =>
    ForStatement.Render E (RenderWith E dyn mainBody) (RenderOpt E dyn elseBody)
      vars value ifExpr values
  | .ifStmt expr mainBody elseBranches, values =>
    IfStatement.Render E expr (RenderWith E dyn mainBody)
      (ElseBranchRenderers E dyn elseBranches) values
  | .setStmt fields expr, values => SetStatement.Render E fields expr values
  | .parentBlock name isScoped, values => ParentBlockStatement.Render dyn name isScoped values
  | .block _ mainBody, values => BlockStatement.Render (RenderWith E dyn mainBody) values
  | .extendsStmt templateName isPath blocks, values =>
    ExtendsStatement.Render E dyn templateName isPath blocks values
/-- The renderer of an optional body (`m_elseBody` may be null). -/
def RenderOpt (E : Externals) (dyn : Statement → Renderer) : Option Statement → Option Renderer
  | none => none
  | some stmt => some (RenderWith E dyn stmt)
/-- Modelled from the spec: a statement list is executed in document order, and
the output appears in the order the statements execute. -/
def RenderList (E : Externals) (dyn : Statement → Renderer) : List Statement → Renderer
  | [], values => .ok ("", values)
  | stmt :: rest, values =>
    match RenderWith E dyn stmt values with
    | .error e => .error e
    | .ok (out, values1) =>
      match RenderList E dyn rest values1 with
      | .error e => .error e
      | .ok (out2, values2) => .ok (out ++ out2, values2)
/-- The guards and renderers of a list of else-branches (`m_elseBranches`). -/
def ElseBranchRenderers (E : Externals) (dyn : Statement → Renderer) :
    List ElseBranchStatement → List (Option Expression × Renderer)
  | [] => []
  | .mk expr mainBody :: rest =>
    (expr, ElseBranchStatement.Render (RenderWith E dyn mainBody)) ::
      ElseBranchRenderers E dyn rest
end

/-- Rendering through run-time references, nested at most `depth` deep. -/
def RenderDyn (E : Externals) : Nat → Statement → Renderer
  | 0 => fun _ _ => .error .dispatchDepth
  | depth + 1 => RenderWith E (RenderDyn E depth)

/-- Embeds `Render` of a statement; `depth` bounds the nesting of renders reached
through run-time references (a template that extends itself never finishes). -/
def Render (E : Externals) (depth : Nat) : Statement → Renderer :=
  RenderWith E (RenderDyn E depth)

/-! ## Notions used to state the properties -/

/-- The guard of an else-branch (`m_expr`). -/
def ElseBranchStatement.expr : ElseBranchStatement → Option Expression
  | .mk e _ => e

/-- The body of an else-branch (`m_mainBody`). -/
def ElseBranchStatement.mainBody : ElseBranchStatement → Statement
  | .mk _ b => b

namespace ForStatement

/-- The effect of binding the loop variables (lines 29-35 and 63-69) on the
scope that receives the bindings. -/
def boundScope (E : Externals) (vars : List String) (curValue : InternalValue)
    (scope : InternalValueMap) : InternalValueMap :=
  if vars.length > 1 then
    vars.foldl (fun m varName => m.set varName (E.Subscript curValue varName)) scope
  else
    match vars.head? with
    | some varName => scope.set varName curValue
    | none => scope

/-- The render context in which the main loop starts when there are `n` items:
the chain on entry with the scope of the loop on top, which binds `loop` only,
and the loop metadata, in which `length` only is set. -/
def loopStart (values : RenderContext) (n : Nat) : RenderContext :=
  { scopes := values.scopes ++
      [InternalValueMap.empty.set "loop" (.mapAdapter values.mapStore.length)],
    mapStore := values.mapStore ++ [InternalValueMap.empty.set "length" (.int (n : Int))],
    objects := values.objects }

/-- The render context in which the filter of a loop is evaluated for the
candidate `curValue`: the chain on entry, the scope of the loop, and the
temporary scope with the loop variables bound to the candidate. -/
def filterContext (E : Externals) (vars : List String) (values : RenderContext)
    (curValue : InternalValue) : RenderContext :=
  { scopes := values.scopes ++
      [InternalValueMap.empty.set "loop" (.mapAdapter values.mapStore.length),
       boundScope E vars curValue InternalValueMap.empty],
    mapStore := values.mapStore ++ [InternalValueMap.empty],
    objects := values.objects }

/-- An observation of `mainLoop`: the render contexts with which it renders the
body, in order (the loop ends at a render that throws). -/
def mainLoopContexts (E : Externals) (body : Renderer) (vars : List String) (s : LoopSetup) :
    Nat → Nat → RenderContext → List RenderContext
  | 0, _, _ => []
  | steps + 1, itemIdx, values =>
    let entry := enterIteration E vars s itemIdx values
    entry ::
      match body entry with
      | .error _ => []
      | .ok (_, values1) => mainLoopContexts E body vars s steps (itemIdx + 1) values1

/-- An observation of `ForStatement::Render`: the render contexts with which it
renders `m_mainBody`, in order. -/
def bodyContexts (E : Externals) (body : Renderer) (vars : List String)
    (value : Expression) (ifExpr : Option Expression) (values : RenderContext) :
    List RenderContext :=
  match prepare E vars value ifExpr values with
  | .ok (.inr s) => mainLoopContexts E body vars s s.loopItems.length 0 s.values
  | _ => []

/-- An observation of `ForStatement::Render`: the render context with which it
renders `m_elseBody` (when there is one), if the loop gets there. -/
def elseContext (E : Externals) (body : Renderer) (vars : List String)
    (value : Expression) (ifExpr : Option Expression) (values : RenderContext) :
    Option RenderContext :=
  match prepare E vars value ifExpr values with
  | .ok (.inr s) =>
    match mainLoop E body vars s s.loopItems.length 0 s.values with
    | .ok (_, values1) => if s.loopItems.length = 0 then some values1 else none
    | .error _ => none
  | _ => none

/-- The texts a renderer writes at each of a list of render contexts. -/
def bodyTexts (body : Renderer) (contexts : List RenderContext) : List String :=
  contexts.map fun c =>
    match body c with
    | .ok (out, _) => out
    | .error _ => ""

end ForStatement

/-- What every render leaves in place: the maps that existed stay as they
are (the store only grows) and the chain does not get shorter. -/
def Frame (values values1 : RenderContext) : Prop :=
  values.mapStore <+: values1.mapStore ∧ values.scopes.length ≤ values1.scopes.length

/-! ## Concrete inputs -/

/-- An expression evaluator for the examples: a few literals, `loop` fields,
a guard on `x`, an expression that throws, and plain variable lookup. -/
def demoEvaluate : Expression → RenderContext → Except RenderError InternalValue
  | "true", _ => .ok (.bool true)
  | "false", _ => .ok (.bool false)
  | "items", _ => .ok (.list [.string "a", .string "b", .string "c"])
  | "nothing", _ => .ok (.list [])
  | "five", _ => .ok (.int 5)
  | "boom", _ => .error (.evaluation "boom")
  | "x is not b", values =>
    match values.FindValue "x" with
    | some (.string s) => .ok (.bool (s != "b"))
    | _ => .ok (.bool false)
  | "loop is defined", values => .ok (.bool (values.FindValue "loop").isSome)
  | "loop.index0", values =>
    match values.FindValue "loop" with
    | some (.mapAdapter addr) => .ok (((values.mapAt addr).find "index0").getD .empty)
    | _ => .ok .empty
  | name, values => .ok ((values.FindValue name).getD .empty)

/-- The collaborators used in the examples. -/
def demoE : Externals where
  Evaluate := demoEvaluate
  ConvertToList := fun v => match v with
    | .list items => some items
    | _ => none
  Subscript := fun v _ => v
  ConvertToBool := fun v => match v with
    | .bool b => b
    | _ => false
  BooleanEvaluator := fun v => match v with
    | .bool b => b
    | _ => false
  ValueToText := fun v => match v with
    | .string s => s
    | .int 0 => "0"
    | .int 1 => "1"
    | .int 2 => "2"
    | _ => ""
  LoadTemplate := fun _ => none

/-- A render context with a root scope only. -/
def demoValues : RenderContext :=
  { scopes := [InternalValueMap.empty], mapStore := [], objects := [] }

/-- The state in which the loop over `items` starts from `demoValues`. -/
def demoSetup : ForStatement.LoopSetup :=
  { loopItems := [.string "a", .string "b", .string "c"], scopeIdx := 1, loopAddr := 0,
    values := ForStatement.loopStart demoValues 3 }

/-- The render context of the second body render of the loop over `items`. -/
def demoEntry1 : RenderContext :=
  (ForStatement.bodyContexts demoE (Render demoE 0 (.exprOutput "x")) ["x"] "items" none
    demoValues).getD 1 demoValues

/-- The render context of the first body render of the loop over `items`. -/
def demoEntry0 : RenderContext :=
  (ForStatement.bodyContexts demoE (Render demoE 0 (.exprOutput "x")) ["x"] "items" none
    demoValues).getD 0 demoValues

/-- The render context of the third (last) body render of the loop over `items`. -/
def demoEntry2 : RenderContext :=
  (ForStatement.bodyContexts demoE (Render demoE 0 (.exprOutput "x")) ["x"] "items" none
    demoValues).getD 2 demoValues

/-- Lines 75-77 after the else-body has been rendered: its result, with the
innermost scope popped by `ExitScope`. -/
def ForStatement.exitScopeAfter (r : RenderResult) : RenderResult :=
  match r with
  | .error e => .error e
  | .ok (out, values) => .ok (out, values.ExitScope)

/-- The value of the guard `x is not b` of the examples for a candidate. -/
def demoGuardValue : InternalValue → InternalValue
  | .string s => .bool (s != "b")
  | _ => .bool false

/-- The loop `for x in items if x is not b` with body `{{ x }}`. -/
def demoFiltered : Statement :=
  .forStmt ["x"] "items" (some "x is not b") (.exprOutput "x") none

/-- The render context of the second body render of `demoFiltered`. -/
def demoFilteredEntry1 : RenderContext :=
  (ForStatement.bodyContexts demoE (Render demoE 0 (.exprOutput "x")) ["x"] "items"
    (some "x is not b") demoValues).getD 1 demoValues

/-- A loop over the value `five`, which is not a sequence. -/
def demoNotConverted : Statement :=
  .forStmt ["x"] "five" none (.rawText "body") (some (.rawText "else"))

/-- An else-body that reports whether it sees a `loop` binding. -/
def demoElseProbe : Statement :=
  .ifStmt "loop is defined" (.rawText "loop visible") [.mk none (.rawText "no loop")]

/-- A loop over an empty sequence whose else-body is `demoElseProbe`. -/
def demoEmptyLoop : Statement :=
  .forStmt ["x"] "nothing" none (.rawText "body") (some demoElseProbe)

/-- A chain of two scopes that both bind `x`; the inner one also binds `y`. -/
def demoScoped : RenderContext :=
  { scopes := [InternalValueMap.empty.set "x" (.string "outer"),
      (InternalValueMap.empty.set "x" (.string "inner")).set "y" (.string "kept")],
    mapStore := [], objects := [] }

/-- A text for a looked-up value, to read off results in the examples. -/
def demoShow : Option InternalValue → String
  | some (.string s) => s
  | some (.int 5) => "5"
  | some _ => "other"
  | none => "unbound"

/-- The conditional `[if:false, elif:false, elif:true -> "A", else -> "B"]`. -/
def demoIfElifTrue : Statement :=
  .ifStmt "false" (.rawText "main")
    [.mk (some "false") (.rawText "skipped"), .mk (some "true") (.rawText "A"),
     .mk none (.rawText "B")]

/-- The conditional `[if:false, elif:false, else -> "B"]`. -/
def demoIfElse : Statement :=
  .ifStmt "false" (.rawText "main")
    [.mk (some "false") (.rawText "skipped"), .mk none (.rawText "B")]

/-- The loop `for x in items if false` with an else-body. -/
def demoAllFiltered : Statement :=
  .forStmt ["x"] "items" (some "false") (.exprOutput "x") (some (.rawText "else"))

/-- The loop `for x in nothing` with the same bodies as `demoAllFiltered`. -/
def demoUnfilteredEmpty : Statement :=
  .forStmt ["x"] "nothing" none (.exprOutput "x") (some (.rawText "else"))

/-- A chain whose innermost scope binds `$$__parent_template` to a value that is
not a renderer reference. -/
def demoBadParent : RenderContext :=
  { scopes := [InternalValueMap.empty,
      InternalValueMap.empty.set "$$__parent_template" (.int 7)],
    mapStore := [], objects := [] }

/-- A block registry with an override for `title`. -/
def demoBlocks : List (String × Statement) :=
  [("title", .block "title" (.rawText "Child title"))]

namespace IfStatement

/-- An observation of lines 91-98 of `IfStatement::Render`: the guards of
else-branches that the loop evaluates, in order.  A branch without a guard is
eligible without an evaluation, a guard that is true ends the loop, and so does
a guard whose evaluation throws. -/
def guardsEvaluated (E : Externals) : List (Option Expression) → RenderContext → List Expression
  | [], _ => []
  | none :: _, _ => []
  | some g :: rest, values =>
    g ::
      match E.Evaluate g values with
      | .ok v => if E.BooleanEvaluator v then [] else guardsEvaluated E rest values
      | .error _ => []

/-- An observation of `IfStatement::Render`: the expressions it evaluates, in
order, given `m_expr` and the guards of `m_elseBranches`. -/
def evaluated (E : Externals) (expr : Expression) (guards : List (Option Expression))
    (values : RenderContext) : List Expression :=
  expr ::
    match E.Evaluate expr values with
    | .ok val => if E.BooleanEvaluator val then [] else guardsEvaluated E guards values
    | .error _ => []

end IfStatement

/-- The conditional `[if:false, elif:true -> "A", elif:<throws> -> "X"]`. -/
def demoIfLazy : Statement :=
  .ifStmt "false" (.rawText "main")
    [.mk (some "true") (.rawText "A"), .mk (some "boom") (.rawText "X")]

/-- The conditional `[if:true -> set x = five, else -> "B"]`. -/
def demoIfSet : Statement :=
  .ifStmt "true" (.setStmt ["x"] (some "five")) [.mk none (.rawText "B")]

mutual
/-- A template made of literal text and block references only. -/
def Statement.isSkeleton : Statement → Bool
  | .rawText _ => true
  | .parentBlock _ _ => true
  | .composed items => allSkeleton items
  | _ => false
/-- Every statement of a list is made of literal text and block references only. -/
def allSkeleton : List Statement → Bool
  | [] => true
  | stmt :: rest => stmt.isSkeleton && allSkeleton rest
end

/-- The render context of `ParentTemplateRenderer::Render` once the dispatch
object is installed, `values` being the context that `ExtendsStatement::Render`
received: the dispatch object exists, at the next free address, and the
innermost scope `inner` of the chain `outer ++ [inner]` binds
`$$__parent_template` to the pointer to it. -/
def ParentTemplateRenderer.installed (template : Statement) (blocks : List (String × Statement))
    (outer : List InternalValueMap) (inner : InternalValueMap)
    (values : RenderContext) : RenderContext :=
  { scopes := outer ++
      [inner.set "$$__parent_template" (.renderer (.object values.objects.length))],
    mapStore := values.mapStore,
    objects := values.objects ++ [some (.parentTemplateRenderer template blocks)] }

/-- The render context that `ParentBlockStatement::Render` hands to
`RenderBlock`: the clone of the context, with one more scope that binds
`$$__super_block` to the block reference. -/
def ParentBlockStatement.innerContext (name : String) (isScoped : Bool)
    (values : RenderContext) : RenderContext :=
  (values.Clone isScoped).EnterScope.2.assign (values.Clone isScoped).scopes.length
    "$$__super_block" (.renderer (.statement (.parentBlock name isScoped)))

/-- Line 222 after the dispatch object's `Render` has returned: its result,
with the object at `self` destroyed as the local `renderer` goes out of scope. -/
def ExtendsStatement.destroyAfter (self : Nat) (r : RenderResult) : RenderResult :=
  match r with
  | .error e => .error e
  | .ok (out, values) => .ok (out, values.destroyObject self)

/-- A parent template: text, the block reference `title`, text. -/
def demoParent : Statement :=
  .composed ([.rawText "<h1>", .rawText "["] ++
    .parentBlock "title" true :: [.rawText "]", .rawText "</h1>"])

/-- The collaborators of the examples with a loader that knows `base`. -/
def demoLoaderE : Externals :=
  { demoE with LoadTemplate := fun name => if name = "base" then some demoParent else none }

/-- A child template that extends `base` and overrides `title`. -/
def demoChild : Statement :=
  .extendsStmt "base" true demoBlocks

/-- The address held by a value that is a pointer to a dispatch object. -/
def demoPointer : Option InternalValue → Option Nat
  | some (.renderer (.object addr)) => some addr
  | _ => none

/-- The source expression of a loop converts to a sequence in whatever render
context it is evaluated. -/
def AlwaysConverts (E : Externals) (value : Expression) : Prop :=
  ∀ values v, E.Evaluate value values = .ok v → E.ConvertToList v ≠ none

mutual
/-- Statements built from literal text, expression output, statement lists,
`set` statements whose targets are not among the names `keep`, conditionals,
and loops over sources that always convert (the bodies of such a loop being of
the same kind, with no restriction on the targets of their `set` statements). -/
def Statement.ScopeSafe (E : Externals) : Statement → (String → Bool) → Prop
  | .rawText _, _ => True
  | .exprOutput _, _ => True
  | .composed items, keep => ScopeSafeList E items keep
  | .setStmt fields _, keep => ∀ f ∈ fields, keep f = false
  | .ifStmt _ mainBody elseBranches, keep =>
    Statement.ScopeSafe E mainBody keep ∧ ScopeSafeBranches E elseBranches keep
  | .forStmt _ value _ mainBody elseBody, _ =>
    AlwaysConverts E value ∧ Statement.ScopeSafe E mainBody (fun _ => false) ∧
      ScopeSafeOpt E elseBody (fun _ => false)
  | .parentBlock _ _, _ => False
  | .block _ _, _ => False
  | .extendsStmt _ _ _, _ => False
/-- Every statement of a list is `ScopeSafe`. -/
def ScopeSafeList (E : Externals) : List Statement → (String → Bool) → Prop
  | [], _ => True
  | stmt :: rest, keep => Statement.ScopeSafe E stmt keep ∧ ScopeSafeList E rest keep
/-- The body of every else-branch of a list is `ScopeSafe`. -/
def ScopeSafeBranches (E : Externals) : List ElseBranchStatement → (String → Bool) → Prop
  | [], _ => True
  | .mk _ mainBody :: rest, keep =>
    Statement.ScopeSafe E mainBody keep ∧ ScopeSafeBranches E rest keep
/-- An optional body is `ScopeSafe` when it is there. -/
def ScopeSafeOpt (E : Externals) : Option Statement → (String → Bool) → Prop
  | none, _ => True
  | some stmt, keep => Statement.ScopeSafe E stmt keep
end

/-- What a `ScopeSafe` statement leaves in place: the depth of the chain, every
scope but the innermost, and in the innermost scope the names `keep`. -/
def Neutral (keep : String → Bool) (values values1 : RenderContext) : Prop :=
  values1.scopes.length = values.scopes.length ∧
  values1.scopes.dropLast = values.scopes.dropLast ∧
  ∀ name, keep name = true →
    (values1.scopeAt (values.scopes.length - 1)).find name =
      (values.scopeAt (values.scopes.length - 1)).find name

mutual
/-- Statements which, by the way they are built, leave alone the names `keep`
of the innermost scope and leave no scope behind: literal text, expression
output, block references (the override runs on a clone of the context),
`set` statements that have no expression or whose targets are not among the
names `keep`, and, built from
such statements, statement lists, conditionals, blocks, loops over sources that
always convert (a loop has a scope of its own, so the targets of the `set`
statements in its bodies are not restricted) and `extends` statements, for
which `$$__parent_template` is not among the names `keep` and the template
that is loaded satisfies `loaded`. -/
def Statement.BodySafe (E : Externals) (loaded : Statement → (String → Bool) → Prop) :
    Statement → (String → Bool) → Prop
  | .rawText _, _ => True
  | .exprOutput _, _ => True
  | .composed items, keep => BodySafeList E loaded items keep
  | .setStmt fields expr, keep => expr = none ∨ ∀ f ∈ fields, keep f = false
  | .ifStmt _ mainBody elseBranches, keep =>
    Statement.BodySafe E loaded mainBody keep ∧ BodySafeBranches E loaded elseBranches keep
  | .forStmt _ value _ mainBody elseBody, _ =>
    AlwaysConverts E value ∧ Statement.BodySafe E loaded mainBody (fun _ => false) ∧
      BodySafeOpt E loaded elseBody (fun _ => false)
  | .parentBlock _ _, _ => True
  | .block _ mainBody, keep => Statement.BodySafe E loaded mainBody keep
  | .extendsStmt templateName isPath _, keep =>
    isPath = true → ∀ template, E.LoadTemplate templateName = some template →
      keep "$$__parent_template" = false ∧ loaded template keep
/-- Every statement of a list is `BodySafe`. -/
def BodySafeList (E : Externals) (loaded : Statement → (String → Bool) → Prop) :
    List Statement → (String → Bool) → Prop
  | [], _ => True
  | stmt :: rest, keep =>
    Statement.BodySafe E loaded stmt keep ∧ BodySafeList E loaded rest keep
/-- The body of every else-branch of a list is `BodySafe`. -/
def BodySafeBranches (E : Externals) (loaded : Statement → (String → Bool) → Prop) :
    List ElseBranchStatement → (String → Bool) → Prop
  | [], _ => True
  | .mk _ mainBody :: rest, keep =>
    Statement.BodySafe E loaded mainBody keep ∧ BodySafeBranches E loaded rest keep
/-- An optional body is `BodySafe` when it is there. -/
def BodySafeOpt (E : Externals) (loaded : Statement → (String → Bool) → Prop) :
    Option Statement → (String → Bool) → Prop
  | none, _ => True
  | some stmt, keep => Statement.BodySafe E loaded stmt keep
end

namespace InternalValueMap

@[ext] theorem ext_find {a b : InternalValueMap} (h : ∀ k, a.find k = b.find k) : a = b := by
  cases a; cases b; congr; funext k; exact h k

@[simp] theorem find_empty (k : String) : empty.find k = none := rfl

@[simp] theorem find_set (m : InternalValueMap) (key : String) (v : InternalValue) (k : String) :
    (m.set key v).find k = if k = key then some v else m.find k := rfl

@[simp] theorem find_erase (m : InternalValueMap) (key k : String) :
    (m.erase key).find k = if k = key then none else m.find k := rfl

end InternalValueMap

theorem modify_length_append {α : Type} (f : α → α) (l : List α) (a : α) (t : List α) :
    List.modify f l.length (l ++ a :: t) = l ++ f a :: t := by
  induction l with
  | nil => simp
  | cons b l ih => simp [ih]

theorem foldl_assign_eq (scopeIdx : Nat) (val : String → InternalValue) (vars : List String)
    (values : RenderContext) :
    vars.foldl (fun vs varName => vs.assign scopeIdx varName (val varName)) values =
      { values with
        scopes := List.modify
          (fun scope => vars.foldl (fun m varName => m.set varName (val varName)) scope)
          scopeIdx values.scopes } := by
  induction vars generalizing values with
  | nil =>
    have hid : (fun scope : InternalValueMap => scope) = id := rfl
    simp [hid]
  | cons a vars ih =>
    rw [List.foldl_cons, ih]
    simp only [RenderContext.assign, List.modify_modify_eq]
    rfl

theorem bindVars_eq (E : Externals) (vars : List String) (scopeIdx : Nat) (x : InternalValue)
    (values : RenderContext) :
    ForStatement.bindVars E vars scopeIdx x values =
      { values with
        scopes := List.modify (ForStatement.boundScope E vars x) scopeIdx values.scopes } := by
  unfold ForStatement.bindVars ForStatement.boundScope
  split
  · rw [foldl_assign_eq]
  · cases h : vars.head? with
    | none =>
      have hid : (fun scope : InternalValueMap => scope) = id := rfl
      simp [hid]
    | some v => simp [RenderContext.assign]

theorem find_foldl_set (val : String → InternalValue) (vars : List String) (m : InternalValueMap)
    (k : String) :
    (vars.foldl (fun m varName => m.set varName (val varName)) m).find k =
      if k ∈ vars then some (val k) else m.find k := by
  induction vars generalizing m with
  | nil => simp
  | cons a vars ih =>
    simp only [List.foldl_cons, ih, InternalValueMap.find_set, List.mem_cons]
    by_cases h1 : k ∈ vars
    · simp [h1]
    · by_cases h2 : k = a
      · simp [h2]
      · simp [h1, h2]

theorem boundScope_find (E : Externals) (vars : List String) (x : InternalValue)
    (m : InternalValueMap) (k : String) :
    (ForStatement.boundScope E vars x m).find k =
      if k ∈ vars then some (if vars.length > 1 then E.Subscript x k else x) else m.find k := by
  unfold ForStatement.boundScope
  split
  · rw [find_foldl_set]
  · match vars with
    | [] => simp
    | [v] => simp
    | _ :: _ :: _ => simp at *

theorem boundScope_idem (E : Externals) (vars : List String) (x y : InternalValue)
    (m : InternalValueMap) :
    ForStatement.boundScope E vars x (ForStatement.boundScope E vars y m) =
      ForStatement.boundScope E vars x m := by
  ext k
  simp only [boundScope_find]
  split <;> rfl

theorem filterItems_shape (E : Externals) (vars : List String) (g : Expression) (tempIdx : Nat)
    (items : List InternalValue) :
    ∀ (acc : List InternalValue) (w : RenderContext) (kept : List InternalValue)
      (w1 : RenderContext),
      ForStatement.filterItems E vars g tempIdx items acc w = .ok (kept, w1) →
      w1.mapStore = w.mapStore ∧ ∃ f, w1.scopes = List.modify f tempIdx w.scopes := by
  induction items with
  | nil =>
    intro acc w kept w1 h
    simp only [ForStatement.filterItems, Except.ok.injEq, Prod.mk.injEq] at h
    obtain ⟨-, rfl⟩ := h
    exact ⟨rfl, id, by simp⟩
  | cons x rest ih =>
    intro acc w kept w1 h
    simp only [ForStatement.filterItems] at h
    split at h
    · cases h
    · obtain ⟨h1, f, h2⟩ := ih _ _ _ _ h
      rw [bindVars_eq] at h1 h2
      refine ⟨h1, f ∘ ForStatement.boundScope E vars x, ?_⟩
      rw [h2]
      simp only [List.modify_modify_eq]

theorem filterItems_objects (E : Externals) (vars : List String) (g : Expression)
    (tempIdx : Nat) (items : List InternalValue) :
    ∀ (acc : List InternalValue) (w : RenderContext) (kept : List InternalValue)
      (w1 : RenderContext),
      ForStatement.filterItems E vars g tempIdx items acc w = .ok (kept, w1) →
      w1.objects = w.objects := by
  induction items with
  | nil =>
    intro acc w kept w1 h
    simp only [ForStatement.filterItems, Except.ok.injEq, Prod.mk.injEq] at h
    obtain ⟨-, rfl⟩ := h
    rfl
  | cons x rest ih =>
    intro acc w kept w1 h
    simp only [ForStatement.filterItems] at h
    split at h
    · cases h
    · have h1 := ih _ _ _ _ h
      rw [bindVars_eq] at h1
      exact h1

theorem filterItems_ok (E : Externals) (vars : List String) (g : Expression) (tempIdx : Nat)
    (w0 : RenderContext) (gv : InternalValue → InternalValue) (items : List InternalValue)
    (hg : ∀ x ∈ items,
      E.Evaluate g (ForStatement.bindVars E vars tempIdx x w0) = .ok (gv x)) :
    ∀ (acc : List InternalValue) (w : RenderContext),
      (w = w0 ∨ ∃ y, w = ForStatement.bindVars E vars tempIdx y w0) →
      ∃ w1, ForStatement.filterItems E vars g tempIdx items acc w =
        .ok (acc ++ items.filter (fun x => E.ConvertToBool (gv x)), w1) := by
  induction items with
  | nil =>
    intro acc w _
    exact ⟨w, by simp [ForStatement.filterItems]⟩
  | cons x rest ih =>
    intro acc w hw
    have hbind : ForStatement.bindVars E vars tempIdx x w =
        ForStatement.bindVars E vars tempIdx x w0 := by
      rcases hw with rfl | ⟨y, rfl⟩
      · rfl
      · rw [bindVars_eq, bindVars_eq, bindVars_eq]
        simp only [List.modify_modify_eq]
        have : (ForStatement.boundScope E vars x ∘ ForStatement.boundScope E vars y) =
            ForStatement.boundScope E vars x := by
          funext m; exact boundScope_idem E vars x y m
        rw [this]
    have hx := hg x (List.mem_cons_self _ _)
    obtain ⟨w1, h1⟩ := ih (fun z hz => hg z (List.mem_cons_of_mem _ hz))
      (if E.ConvertToBool (gv x) then acc ++ [x] else acc)
      (ForStatement.bindVars E vars tempIdx x w0) (Or.inr ⟨x, rfl⟩)
    refine ⟨w1, ?_⟩
    simp only [ForStatement.filterItems, hbind, hx, h1, List.filter_cons]
    by_cases hc : E.ConvertToBool (gv x) = true
    · simp [hc]
    · simp [hc]

theorem loopScope_eq (values : RenderContext) :
    (values.EnterScope.2.newMap.2.assign values.scopes.length "loop"
        (.mapAdapter values.mapStore.length)) =
      { scopes := values.scopes ++
          [InternalValueMap.empty.set "loop" (.mapAdapter values.mapStore.length)],
        mapStore := values.mapStore ++ [InternalValueMap.empty],
        objects := values.objects } := by
  simp only [RenderContext.EnterScope, RenderContext.newMap, RenderContext.assign,
    modify_length_append]

theorem prepare_notConverted (E : Externals) (vars : List String) (value : Expression)
    (ifExpr : Option Expression) (values : RenderContext) (v : InternalValue)
    (hv : E.Evaluate value values = .ok v) (hS : E.ConvertToList v = none) :
    ForStatement.prepare E vars value ifExpr values =
      .ok (.inl
        { scopes := values.scopes ++
            [InternalValueMap.empty.set "loop" (.mapAdapter values.mapStore.length)],
          mapStore := values.mapStore ++ [InternalValueMap.empty],
          objects := values.objects }) := by
  simp only [ForStatement.prepare, hv, hS, RenderContext.EnterScope, RenderContext.newMap,
    RenderContext.assign, modify_length_append]

theorem prepare_noFilter (E : Externals) (vars : List String) (value : Expression)
    (values : RenderContext) (v : InternalValue) (S : List InternalValue)
    (hv : E.Evaluate value values = .ok v) (hS : E.ConvertToList v = some S) :
    ForStatement.prepare E vars value none values =
      .ok (.inr
        { loopItems := S, scopeIdx := values.scopes.length, loopAddr := values.mapStore.length,
          values := ForStatement.loopStart values S.length }) := by
  simp only [ForStatement.prepare, hv, hS, RenderContext.EnterScope, RenderContext.newMap,
    RenderContext.assign, RenderContext.updateMap, modify_length_append,
    ForStatement.loopStart]

theorem filterContext_eq (E : Externals) (vars : List String) (values : RenderContext)
    (x : InternalValue) :
    ForStatement.bindVars E vars (values.scopes.length + 1) x
      { scopes := values.scopes ++
          [InternalValueMap.empty.set "loop" (.mapAdapter values.mapStore.length)] ++
          [InternalValueMap.empty],
        mapStore := values.mapStore ++ [InternalValueMap.empty],
        objects := values.objects } =
      ForStatement.filterContext E vars values x := by
  rw [bindVars_eq]
  have h := modify_length_append (ForStatement.boundScope E vars x)
    (values.scopes ++ [InternalValueMap.empty.set "loop" (.mapAdapter values.mapStore.length)])
    InternalValueMap.empty []
  simp only [List.length_append, List.length_singleton, List.append_assoc,
    List.singleton_append] at h
  simp only [h, ForStatement.filterContext, List.append_assoc, List.singleton_append]

theorem prepare_filter (E : Externals) (vars : List String) (value g : Expression)
    (values : RenderContext) (v : InternalValue) (S : List InternalValue)
    (gv : InternalValue → InternalValue)
    (hv : E.Evaluate value values = .ok v) (hS : E.ConvertToList v = some S)
    (hg : ∀ x ∈ S, E.Evaluate g (ForStatement.filterContext E vars values x) = .ok (gv x)) :
    ForStatement.prepare E vars value (some g) values =
      .ok (.inr
        { loopItems := S.filter (fun x => E.ConvertToBool (gv x)),
          scopeIdx := values.scopes.length, loopAddr := values.mapStore.length,
          values := ForStatement.loopStart values
            (S.filter (fun x => E.ConvertToBool (gv x))).length }) := by
  have hg1 : ∀ x ∈ S, E.Evaluate g (ForStatement.bindVars E vars (values.scopes.length + 1) x
      { scopes := values.scopes ++
          [InternalValueMap.empty.set "loop" (.mapAdapter values.mapStore.length)] ++
          [InternalValueMap.empty],
        mapStore := values.mapStore ++ [InternalValueMap.empty],
        objects := values.objects }) = .ok (gv x) := by
    intro x hx
    rw [filterContext_eq]
    exact hg x hx
  obtain ⟨w1, h1⟩ := filterItems_ok E vars g (values.scopes.length + 1) _ gv S hg1 [] _
    (Or.inl rfl)
  obtain ⟨hm, f, hs⟩ := filterItems_shape E vars g _ S _ _ _ _ h1
  have ho := filterItems_objects E vars g _ S _ _ _ _ h1
  have hmod := modify_length_append f
    (values.scopes ++ [InternalValueMap.empty.set "loop" (.mapAdapter values.mapStore.length)])
    InternalValueMap.empty []
  simp only [List.length_append, List.length_singleton] at hmod
  simp only [hmod] at hs
  simp only [ForStatement.prepare, hv, hS, RenderContext.EnterScope, RenderContext.newMap,
    RenderContext.assign, RenderContext.updateMap, modify_length_append,
    ForStatement.loopStart, List.length_append, List.length_singleton, h1,
    List.nil_append, RenderContext.ExitScope, hs, hm, ho, List.dropLast_concat]

theorem prepare_inr (E : Externals) (vars : List String) (value : Expression)
    (ifExpr : Option Expression) (values : RenderContext) (s : ForStatement.LoopSetup)
    (h : ForStatement.prepare E vars value ifExpr values = .ok (.inr s)) :
    s.scopeIdx = values.scopes.length ∧ s.loopAddr = values.mapStore.length ∧
      s.values = ForStatement.loopStart values s.loopItems.length := by
  unfold ForStatement.prepare at h
  cases hv : E.Evaluate value values with
  | error e => simp [hv] at h
  | ok v =>
    cases hS : E.ConvertToList v with
    | none => simp [hv, hS, RenderContext.EnterScope, RenderContext.newMap] at h
    | some S =>
      cases ifExpr with
      | none =>
        simp only [hv, hS, RenderContext.EnterScope, RenderContext.newMap,
          RenderContext.assign, RenderContext.updateMap, modify_length_append,
          Except.ok.injEq, Sum.inr.injEq] at h
        subst h
        exact ⟨rfl, rfl, rfl⟩
      | some g =>
        simp only [hv, hS, RenderContext.EnterScope, RenderContext.newMap,
          RenderContext.assign, RenderContext.updateMap, modify_length_append] at h
        split at h
        · cases h
        · rename_i items w6 hf
          split at hf
          · cases hf
          · rename_i kept w5 hfi
            obtain ⟨hm, f, hs⟩ := filterItems_shape E vars g _ S _ _ _ _ hfi
            have ho := filterItems_objects E vars g _ S _ _ _ _ hfi
            have hmod := modify_length_append f
              (values.scopes ++
                [InternalValueMap.empty.set "loop" (.mapAdapter values.mapStore.length)])
              InternalValueMap.empty []
            simp only [List.length_append, List.length_singleton] at hmod hs
            simp only [hmod] at hs
            simp only [Except.ok.injEq, Prod.mk.injEq] at hf
            obtain ⟨rfl, rfl⟩ := hf
            simp only [Except.ok.injEq, Sum.inr.injEq] at h
            subst h
            simp only [RenderContext.ExitScope, hs, hm, ho, List.dropLast_concat,
              modify_length_append, ForStatement.loopStart, and_self]

theorem Frame.refl (v : RenderContext) : Frame v v :=
  ⟨List.prefix_refl _, Nat.le_refl _⟩

theorem Frame.trans {a b c : RenderContext} (h1 : Frame a b) (h2 : Frame b c) : Frame a c :=
  ⟨h1.1.trans h2.1, Nat.le_trans h1.2 h2.2⟩

theorem modify_append_of_le {α : Type} (f : α → α) (l t : List α) :
    ∀ i, l.length ≤ i → List.modify f i (l ++ t) = l ++ List.modify f (i - l.length) t := by
  induction l with
  | nil => intro i _; simp
  | cons a l ih =>
    intro i hi
    cases i with
    | zero => simp at hi
    | succ i =>
      simp only [List.length_cons, Nat.add_le_add_iff_right] at hi
      simp [ih i hi]

theorem prefix_modify {α : Type} (f : α → α) (l l2 : List α) (i : Nat) (h : l <+: l2)
    (hi : l.length ≤ i) : l <+: List.modify f i l2 := by
  obtain ⟨t, rfl⟩ := h
  rw [modify_append_of_le f l t i hi]
  exact List.prefix_append _ _

theorem Frame.assign (v : RenderContext) (i : Nat) (name : String) (x : InternalValue) :
    Frame v (v.assign i name x) :=
  ⟨List.prefix_refl _, by simp [RenderContext.assign]⟩

theorem enterIteration_mapStore (E : Externals) (vars : List String) (s : ForStatement.LoopSetup)
    (itemIdx : Nat) (w : RenderContext) :
    (ForStatement.enterIteration E vars s itemIdx w).mapStore =
      List.modify (ForStatement.updateLoopVar s.loopItems itemIdx) s.loopAddr w.mapStore := by
  simp only [ForStatement.enterIteration, bindVars_eq, RenderContext.updateMap]

theorem enterIteration_scopes (E : Externals) (vars : List String) (s : ForStatement.LoopSetup)
    (itemIdx : Nat) (w : RenderContext) :
    (ForStatement.enterIteration E vars s itemIdx w).scopes =
      List.modify (ForStatement.boundScope E vars (GetValueByIndex s.loopItems itemIdx))
        s.scopeIdx w.scopes := by
  simp only [ForStatement.enterIteration, bindVars_eq, RenderContext.updateMap]

theorem mainLoop_frame (E : Externals) (body : Renderer) (vars : List String)
    (s : ForStatement.LoopSetup) (base : List InternalValueMap) (hbase : base.length ≤ s.loopAddr)
    (hb : ∀ v out v1, body v = .ok (out, v1) → Frame v v1) :
    ∀ (steps itemIdx : Nat) (w : RenderContext) (out : String) (w1 : RenderContext),
      ForStatement.mainLoop E body vars s steps itemIdx w = .ok (out, w1) →
      base <+: w.mapStore → base <+: w1.mapStore ∧ w.scopes.length ≤ w1.scopes.length := by
  intro steps
  induction steps with
  | zero =>
    intro itemIdx w out w1 h hw
    simp only [ForStatement.mainLoop, Except.ok.injEq, Prod.mk.injEq] at h
    obtain ⟨-, rfl⟩ := h
    exact ⟨hw, Nat.le_refl _⟩
  | succ steps ih =>
    intro itemIdx w out w1 h hw
    simp only [ForStatement.mainLoop] at h
    split at h
    · cases h
    · rename_i out1 v1 hbody
      split at h
      · cases h
      · rename_i rest v2 hrest
        simp only [Except.ok.injEq, Prod.mk.injEq] at h
        obtain ⟨-, rfl⟩ := h
        have hf := hb _ _ _ hbody
        have h1 : base <+: v1.mapStore := by
          refine List.IsPrefix.trans ?_ hf.1
          rw [enterIteration_mapStore]
          exact prefix_modify _ _ _ _ hw hbase
        have h2 := ih _ _ _ _ hrest h1
        refine ⟨h2.1, Nat.le_trans ?_ h2.2⟩
        have := hf.2
        rw [enterIteration_scopes, List.length_modify] at this
        exact this

theorem ForStatement_Render_frame (E : Externals) (body : Renderer) (elseBody : Option Renderer)
    (vars : List String) (value : Expression) (ifExpr : Option Expression)
    (hb : ∀ v out v1, body v = .ok (out, v1) → Frame v v1)
    (he : ∀ r, elseBody = some r → ∀ v out v1, r v = .ok (out, v1) → Frame v v1)
    (values : RenderContext) (out : String) (values1 : RenderContext)
    (h : ForStatement.Render E body elseBody vars value ifExpr values = .ok (out, values1)) :
    Frame values values1 := by
  unfold ForStatement.Render at h
  split at h
  · cases h
  · rename_i w hp
    simp only [Except.ok.injEq, Prod.mk.injEq] at h
    obtain ⟨-, rfl⟩ := h
    unfold ForStatement.prepare at hp
    cases hv : E.Evaluate value values with
    | error e => simp [hv] at hp
    | ok v =>
      cases hS : E.ConvertToList v with
      | none =>
        simp only [hv, hS, loopScope_eq, RenderContext.EnterScope, RenderContext.newMap,
          Except.ok.injEq, Sum.inl.injEq] at hp
        subst hp
        exact ⟨by simp [RenderContext.assign], by simp [RenderContext.assign]⟩
      | some S =>
        simp only [hv, hS] at hp
        split at hp <;> cases hp
  · rename_i s hp
    obtain ⟨hidx, haddr, hval⟩ := prepare_inr E vars value ifExpr values s hp
    split at h
    · cases h
    · rename_i out1 w1 hloop
      have hml := mainLoop_frame E body vars s values.mapStore (by omega) hb _ _ _ _ _ hloop
        (by rw [hval]; exact List.prefix_append _ _)
      have hlen : values.scopes.length + 1 ≤ w1.scopes.length := by
        have := hml.2
        rw [hval] at this
        simpa [ForStatement.loopStart] using this
      dsimp only at h
      split at h
      · rename_i r hr
        split at h
        · cases h
        · rename_i out2 w2 hr2
          simp only [Except.ok.injEq, Prod.mk.injEq] at h
          obtain ⟨-, rfl⟩ := h
          have hre : elseBody = some r := by
            split at hr
            · exact hr
            · cases hr
          have hf := he r hre _ _ _ hr2
          refine ⟨hml.1.trans hf.1, ?_⟩
          have := hf.2
          simp only [RenderContext.ExitScope, List.length_dropLast]
          omega
      · simp only [Except.ok.injEq, Prod.mk.injEq] at h
        obtain ⟨-, rfl⟩ := h
        refine ⟨hml.1, ?_⟩
        simp only [RenderContext.ExitScope, List.length_dropLast]
        omega

theorem SetStatement_Render_frame (E : Externals) (fields : List String)
    (expr : Option Expression) (values : RenderContext) (out : String) (values1 : RenderContext)
    (h : SetStatement.Render E fields expr values = .ok (out, values1)) :
    Frame values values1 := by
  have hfold : ∀ (val : InternalValue) (names : List String) (w : RenderContext),
      Frame w (names.foldl
        (fun vs name => vs.assign vs.GetCurrentScope name (E.Subscript val name)) w) := by
    intro val names
    induction names with
    | nil => intro w; exact Frame.refl w
    | cons a names ih =>
      intro w
      exact (Frame.assign w _ a _).trans (ih _)
  unfold SetStatement.Render at h
  split at h
  · simp only [Except.ok.injEq, Prod.mk.injEq] at h
    obtain ⟨-, rfl⟩ := h
    exact Frame.refl _
  · split at h
    · cases h
    · split at h
      · simp only [Except.ok.injEq, Prod.mk.injEq] at h
        obtain ⟨-, rfl⟩ := h
        exact Frame.assign _ _ _ _
      · simp only [Except.ok.injEq, Prod.mk.injEq] at h
        obtain ⟨-, rfl⟩ := h
        exact hfold _ _ _

theorem ParentBlockStatement_Render_frame (dyn : Statement → Renderer)
    (hd : ∀ s v out v1, dyn s v = .ok (out, v1) → Frame v v1)
    (name : String) (isScoped : Bool) (values : RenderContext) (out : String)
    (values1 : RenderContext)
    (h : ParentBlockStatement.Render dyn name isScoped values = .ok (out, values1)) :
    Frame values values1 := by
  unfold ParentBlockStatement.Render at h
  dsimp only at h
  split at h
  · simp only [Except.ok.injEq, Prod.mk.injEq] at h
    obtain ⟨-, rfl⟩ := h
    exact Frame.refl _
  · rename_i ptr hfind
    simp only [RenderContext.EnterScope] at h
    split at h
    · cases h
    · rename_i target hderef
      split at h
      · cases h
      · rename_i out1 inner3 hrb
        simp only [Except.ok.injEq, Prod.mk.injEq] at h
        obtain ⟨-, rfl⟩ := h
        refine ⟨?_, Nat.le_refl _⟩
        have hpre : values.mapStore <+: inner3.mapStore := by
          unfold ParentTemplateRenderer.RenderBlock at hrb
          split at hrb
          · split at hrb
            · simp only [Except.ok.injEq, Prod.mk.injEq] at hrb
              obtain ⟨-, rfl⟩ := hrb
              cases isScoped <;> simp [RenderContext.assign, RenderContext.Clone]
            · have := (hd _ _ _ _ hrb).1
              cases isScoped <;> simpa [RenderContext.assign, RenderContext.Clone] using this
          · cases hrb
        simpa [RenderContext.ExitScope] using hpre
  · simp only [Except.ok.injEq, Prod.mk.injEq] at h
    obtain ⟨-, rfl⟩ := h
    exact Frame.refl _

theorem IfStatement_Render_frame (E : Externals) (expr : Expression) (mainBody : Renderer)
    (elseBranches : List (Option Expression × Renderer))
    (hb : ∀ v out v1, mainBody v = .ok (out, v1) → Frame v v1)
    (he : ∀ p ∈ elseBranches, ∀ v out v1, p.2 v = .ok (out, v1) → Frame v v1)
    (values : RenderContext) (out : String) (values1 : RenderContext)
    (h : IfStatement.Render E expr mainBody elseBranches values = .ok (out, values1)) :
    Frame values values1 := by
  unfold IfStatement.Render at h
  split at h
  · cases h
  · split at h
    · exact hb _ _ _ h
    · clear hb
      induction elseBranches with
      | nil =>
        simp only [IfStatement.renderElseBranches, Except.ok.injEq, Prod.mk.injEq] at h
        obtain ⟨-, rfl⟩ := h
        exact Frame.refl _
      | cons p rest ih =>
        obtain ⟨g, render⟩ := p
        simp only [IfStatement.renderElseBranches] at h
        split at h
        · cases h
        · exact he (g, render) (List.mem_cons_self _ _) _ _ _ h
        · exact ih (fun q hq => he q (List.mem_cons_of_mem _ hq)) h

theorem ExtendsStatement_Render_frame (E : Externals) (dyn : Statement → Renderer)
    (hd : ∀ s v out v1, dyn s v = .ok (out, v1) → Frame v v1)
    (templateName : String) (isPath : Bool) (blocks : List (String × Statement))
    (values : RenderContext) (out : String) (values1 : RenderContext)
    (h : ExtendsStatement.Render E dyn templateName isPath blocks values = .ok (out, values1)) :
    Frame values values1 := by
  unfold ExtendsStatement.Render at h
  split at h
  · simp only [Except.ok.injEq, Prod.mk.injEq] at h
    obtain ⟨-, rfl⟩ := h
    exact Frame.refl _
  · split at h
    · simp only [Except.ok.injEq, Prod.mk.injEq] at h
      obtain ⟨-, rfl⟩ := h
      exact Frame.refl _
    · simp only [RenderContext.newObject] at h
      split at h
      · cases h
      · rename_i out1 values2 hr
        simp only [Except.ok.injEq, Prod.mk.injEq] at h
        obtain ⟨-, rfl⟩ := h
        unfold ParentTemplateRenderer.Render at hr
        refine Frame.trans ?_ (((Frame.assign _ _ _ _).trans (hd _ _ _ _ hr)).trans
          ⟨List.prefix_refl _, Nat.le_refl _⟩)
        exact Frame.refl values

mutual
theorem RenderWith_frame (E : Externals) (dyn : Statement → Renderer)
    (hd : ∀ s v out v1, dyn s v = .ok (out, v1) → Frame v v1) :
    ∀ (stmt : Statement) (v : RenderContext) (out : String) (v1 : RenderContext),
      RenderWith E dyn stmt v = .ok (out, v1) → Frame v v1
  | .rawText text, v, out, v1, h => by
    simp only [RenderWith, Except.ok.injEq, Prod.mk.injEq] at h
    obtain ⟨-, rfl⟩ := h
    exact Frame.refl _
  | .exprOutput expr, v, out, v1, h => by
    simp only [RenderWith] at h
    split at h
    · cases h
    · simp only [Except.ok.injEq, Prod.mk.injEq] at h
      obtain ⟨-, rfl⟩ := h
      exact Frame.refl _
  | .composed items, v, out, v1, h => by
    simp only [RenderWith] at h
    exact RenderList_frame E dyn hd items v out v1 h
  | .forStmt vars value ifExpr mainBody elseBody, v, out, v1, h => by
    simp only [RenderWith] at h
    exact ForStatement_Render_frame E _ _ vars value ifExpr
      (RenderWith_frame E dyn hd mainBody) (RenderOpt_frame E dyn hd elseBody) v out v1 h
  | .ifStmt expr mainBody elseBranches, v, out, v1, h => by
    simp only [RenderWith] at h
    exact IfStatement_Render_frame E expr _ _ (RenderWith_frame E dyn hd mainBody)
      (ElseBranchRenderers_frame E dyn hd elseBranches) v out v1 h
  | .setStmt fields expr, v, out, v1, h => by
    simp only [RenderWith] at h
    exact SetStatement_Render_frame E fields expr v out v1 h
  | .parentBlock name isScoped, v, out, v1, h => by
    simp only [RenderWith] at h
    exact ParentBlockStatement_Render_frame dyn hd name isScoped v out v1 h
  | .block _ mainBody, v, out, v1, h => by
    simp only [RenderWith, BlockStatement.Render] at h
    exact RenderWith_frame E dyn hd mainBody v out v1 h
  | .extendsStmt templateName isPath blocks, v, out, v1, h => by
    simp only [RenderWith] at h
    exact ExtendsStatement_Render_frame E dyn hd templateName isPath blocks v out v1 h
theorem RenderOpt_frame (E : Externals) (dyn : Statement → Renderer)
    (hd : ∀ s v out v1, dyn s v = .ok (out, v1) → Frame v v1) :
    ∀ (o : Option Statement) (r : Renderer), RenderOpt E dyn o = some r →
      ∀ (v : RenderContext) (out : String) (v1 : RenderContext),
        r v = .ok (out, v1) → Frame v v1
  | none, r, hr => by simp [RenderOpt] at hr
  | some stmt, r, hr => by
    simp only [RenderOpt, Option.some.injEq] at hr
    subst hr
    exact RenderWith_frame E dyn hd stmt
theorem RenderList_frame (E : Externals) (dyn : Statement → Renderer)
    (hd : ∀ s v out v1, dyn s v = .ok (out, v1) → Frame v v1) :
    ∀ (items : List Statement) (v : RenderContext) (out : String) (v1 : RenderContext),
      RenderList E dyn items v = .ok (out, v1) → Frame v v1
  | [], v, out, v1, h => by
    simp only [RenderList, Except.ok.injEq, Prod.mk.injEq] at h
    obtain ⟨-, rfl⟩ := h
    exact Frame.refl _
  | stmt :: rest, v, out, v1, h => by
    simp only [RenderList] at h
    split at h
    · cases h
    · rename_i o1 w1 h1
      split at h
      · cases h
      · rename_i o2 w2 h2
        simp only [Except.ok.injEq, Prod.mk.injEq] at h
        obtain ⟨-, rfl⟩ := h
        exact (RenderWith_frame E dyn hd stmt _ _ _ h1).trans
          (RenderList_frame E dyn hd rest _ _ _ h2)
theorem ElseBranchRenderers_frame (E : Externals) (dyn : Statement → Renderer)
    (hd : ∀ s v out v1, dyn s v = .ok (out, v1) → Frame v v1) :
    ∀ (branches : List ElseBranchStatement),
      ∀ p ∈ ElseBranchRenderers E dyn branches,
        ∀ (v : RenderContext) (out : String) (v1 : RenderContext),
          p.2 v = .ok (out, v1) → Frame v v1
  | [], p, hp => by simp [ElseBranchRenderers] at hp
  | .mk expr mainBody :: rest, p, hp => by
    simp only [ElseBranchRenderers, List.mem_cons] at hp
    rcases hp with rfl | hp
    · exact RenderWith_frame E dyn hd mainBody
    · exact ElseBranchRenderers_frame E dyn hd rest p hp
end

theorem RenderDyn_frame (E : Externals) :
    ∀ (depth : Nat) (stmt : Statement) (v : RenderContext) (out : String) (v1 : RenderContext),
      RenderDyn E depth stmt v = .ok (out, v1) → Frame v v1
  | 0, _, _, _, _, h => by simp [RenderDyn] at h
  | depth + 1, stmt, v, out, v1, h => by
    simp only [RenderDyn] at h
    exact RenderWith_frame E _ (RenderDyn_frame E depth) stmt v out v1 h

theorem Render_frame (E : Externals) (depth : Nat) (stmt : Statement) (v : RenderContext)
    (out : String) (v1 : RenderContext) (h : Render E depth stmt v = .ok (out, v1)) :
    Frame v v1 :=
  RenderWith_frame E _ (RenderDyn_frame E depth) stmt v out v1 h

theorem join_cons (a : String) (l : List String) : String.join (a :: l) = a ++ String.join l := by
  apply String.ext
  simp [String.join_eq]

theorem getD_modify_self {α : Type} (f : α → α) (d : α) :
    ∀ (l : List α) (i : Nat), i < l.length → (List.modify f i l).getD i d = f (l.getD i d) := by
  intro l
  induction l with
  | nil => intro i hi; simp at hi
  | cons a l ih =>
    intro i hi
    cases i with
    | zero => simp
    | succ i =>
      simp only [List.length_cons, Nat.add_lt_add_iff_right] at hi
      simpa using ih i hi

theorem getD_of_prefix {α : Type} (d : α) (l l2 : List α) (i : Nat) (h : l <+: l2)
    (hi : i < l.length) : l2.getD i d = l.getD i d := by
  obtain ⟨t, rfl⟩ := h
  simp [List.getD_eq_getElem?_getD, List.getElem?_append_left hi]

theorem updateLoopVar_find_length (items : List InternalValue) (i : Nat) (m : InternalValueMap) :
    (ForStatement.updateLoopVar items i m).find "length" = m.find "length" := by
  simp only [ForStatement.updateLoopVar]
  split <;> split <;> simp

theorem enterIteration_mapAt (E : Externals) (vars : List String) (s : ForStatement.LoopSetup)
    (itemIdx : Nat) (w : RenderContext) (h : s.loopAddr < w.mapStore.length) :
    (ForStatement.enterIteration E vars s itemIdx w).mapAt s.loopAddr =
      ForStatement.updateLoopVar s.loopItems itemIdx (w.mapAt s.loopAddr) := by
  simp only [RenderContext.mapAt, enterIteration_mapStore]
  exact getD_modify_self _ _ _ _ h

theorem enterIteration_scopeAt (E : Externals) (vars : List String) (s : ForStatement.LoopSetup)
    (itemIdx : Nat) (w : RenderContext) (h : s.scopeIdx < w.scopes.length) :
    (ForStatement.enterIteration E vars s itemIdx w).scopeAt s.scopeIdx =
      ForStatement.boundScope E vars (GetValueByIndex s.loopItems itemIdx)
        (w.scopeAt s.scopeIdx) := by
  simp only [RenderContext.scopeAt, enterIteration_scopes]
  exact getD_modify_self _ _ _ _ h

theorem mainLoopContexts_entry (E : Externals) (body : Renderer) (vars : List String)
    (s : ForStatement.LoopSetup)
    (hb : ∀ v out v1, body v = .ok (out, v1) → Frame v v1) :
    ∀ (steps itemIdx : Nat) (w : RenderContext) (j : Nat) (c : RenderContext),
      s.loopAddr < w.mapStore.length → s.scopeIdx < w.scopes.length →
      (ForStatement.mainLoopContexts E body vars s steps itemIdx w)[j]? = some c →
      j < steps ∧ ∃ w1, c = ForStatement.enterIteration E vars s (itemIdx + j) w1 ∧
        s.loopAddr < w1.mapStore.length ∧ s.scopeIdx < w1.scopes.length ∧
        (w1.mapAt s.loopAddr).find "length" = (w.mapAt s.loopAddr).find "length" ∧
        (j = 0 → w1 = w) := by
  intro steps
  induction steps with
  | zero =>
    intro itemIdx w j c _ _ h
    simp [ForStatement.mainLoopContexts] at h
  | succ steps ih =>
    intro itemIdx w j c ha hs h
    simp only [ForStatement.mainLoopContexts] at h
    cases j with
    | zero =>
      simp only [List.getElem?_cons_zero, Option.some.injEq] at h
      exact ⟨Nat.succ_pos _, w, h.symm, ha, hs, rfl, fun _ => rfl⟩
    | succ j =>
      simp only [List.getElem?_cons_succ] at h
      split at h
      · simp at h
      · rename_i out v1 hbody
        have hf := hb _ _ _ hbody
        have hlen1 : (ForStatement.enterIteration E vars s itemIdx w).mapStore.length =
            w.mapStore.length := by
          rw [enterIteration_mapStore, List.length_modify]
        have hlen2 : (ForStatement.enterIteration E vars s itemIdx w).scopes.length =
            w.scopes.length := by
          rw [enterIteration_scopes, List.length_modify]
        have ha1 : s.loopAddr < v1.mapStore.length :=
          Nat.lt_of_lt_of_le (hlen1 ▸ ha) hf.1.length_le
        have hs1 : s.scopeIdx < v1.scopes.length :=
          Nat.lt_of_lt_of_le (hlen2 ▸ hs) hf.2
        obtain ⟨hj, w1, hc, h1, h2, h3, -⟩ := ih (itemIdx + 1) v1 j c ha1 hs1 h
        refine ⟨Nat.succ_lt_succ hj, w1, ?_, h1, h2, ?_, fun h0 => by omega⟩
        · rw [hc]; congr 1; omega
        · rw [h3]
          have : v1.mapAt s.loopAddr =
              (ForStatement.enterIteration E vars s itemIdx w).mapAt s.loopAddr :=
            getD_of_prefix _ _ _ _ hf.1 (hlen1 ▸ ha)
          rw [this, enterIteration_mapAt E vars s itemIdx w ha, updateLoopVar_find_length]

theorem mainLoop_of_contexts (E : Externals) (body : Renderer) (vars : List String)
    (s : ForStatement.LoopSetup) :
    ∀ (steps itemIdx : Nat) (w : RenderContext),
      (∀ c ∈ ForStatement.mainLoopContexts E body vars s steps itemIdx w, ∃ r, body c = .ok r) →
      (ForStatement.mainLoopContexts E body vars s steps itemIdx w).length = steps ∧
      ∃ w1, ForStatement.mainLoop E body vars s steps itemIdx w =
        .ok (String.join (ForStatement.bodyTexts body
          (ForStatement.mainLoopContexts E body vars s steps itemIdx w)), w1) := by
  intro steps
  induction steps with
  | zero =>
    intro itemIdx w _
    exact ⟨rfl, w, rfl⟩
  | succ steps ih =>
    intro itemIdx w hall
    simp only [ForStatement.mainLoopContexts] at hall ⊢
    obtain ⟨⟨out, v1⟩, hr⟩ := hall _ (List.mem_cons_self _ _)
    simp only [hr] at hall ⊢
    obtain ⟨hlen, w1, hw1⟩ := ih (itemIdx + 1) v1
      (fun c hc => hall c (List.mem_cons_of_mem _ hc))
    refine ⟨by simp [hlen], w1, ?_⟩
    simp only [ForStatement.mainLoop, hr, hw1, ForStatement.bodyTexts, List.map_cons, join_cons]

theorem mainLoop_contexts_of_ok (E : Externals) (body : Renderer) (vars : List String)
    (s : ForStatement.LoopSetup) :
    ∀ (steps itemIdx : Nat) (w : RenderContext) (r : String × RenderContext),
      ForStatement.mainLoop E body vars s steps itemIdx w = .ok r →
      ∀ c ∈ ForStatement.mainLoopContexts E body vars s steps itemIdx w, ∃ r1, body c = .ok r1 := by
  intro steps
  induction steps with
  | zero =>
    intro itemIdx w r _ c hc
    simp [ForStatement.mainLoopContexts] at hc
  | succ steps ih =>
    intro itemIdx w r h c hc
    simp only [ForStatement.mainLoop] at h
    simp only [ForStatement.mainLoopContexts] at hc
    split at h
    · cases h
    · rename_i out v1 hbody
      split at h
      · cases h
      · rename_i rest v2 hrest
        simp only [hbody, List.mem_cons] at hc
        rcases hc with rfl | hc
        · exact ⟨_, hbody⟩
        · exact ih _ _ _ hrest c hc

theorem loopStart_mapAt (values : RenderContext) (n : Nat) :
    (ForStatement.loopStart values n).mapAt values.mapStore.length =
      InternalValueMap.empty.set "length" (.int (n : Int)) := by
  simp [ForStatement.loopStart, RenderContext.mapAt, List.getD_eq_getElem?_getD]

theorem loopStart_scopeAt (values : RenderContext) (n : Nat) :
    (ForStatement.loopStart values n).scopeAt values.scopes.length =
      InternalValueMap.empty.set "loop" (.mapAdapter values.mapStore.length) := by
  simp [ForStatement.loopStart, RenderContext.scopeAt, List.getD_eq_getElem?_getD]

theorem bodyContexts_entry (E : Externals) (depth : Nat) (vars : List String)
    (value : Expression) (ifExpr : Option Expression) (mainBody : Statement)
    (values : RenderContext) (s : ForStatement.LoopSetup)
    (hp : ForStatement.prepare E vars value ifExpr values = .ok (.inr s))
    (i : Nat) (c : RenderContext)
    (hc : (ForStatement.bodyContexts E (Render E depth mainBody) vars value ifExpr values)[i]? =
      some c) :
    i < s.loopItems.length ∧ ∃ w1, c = ForStatement.enterIteration E vars s i w1 ∧
      s.loopAddr < w1.mapStore.length ∧ s.scopeIdx < w1.scopes.length ∧
      (w1.mapAt s.loopAddr).find "length" = some (.int (s.loopItems.length : Int)) ∧
      (i = 0 → w1 = s.values) := by
  obtain ⟨hidx, haddr, hval⟩ := prepare_inr E vars value ifExpr values s hp
  simp only [ForStatement.bodyContexts, hp] at hc
  have ha : s.loopAddr < s.values.mapStore.length := by
    rw [hval, haddr]; simp [ForStatement.loopStart]
  have hs : s.scopeIdx < s.values.scopes.length := by
    rw [hval, hidx]; simp [ForStatement.loopStart]
  obtain ⟨hi, w1, h1, h2, h3, h4, h5⟩ := mainLoopContexts_entry E (Render E depth mainBody) vars s
    (Render_frame E depth mainBody) _ 0 s.values i c ha hs hc
  refine ⟨hi, w1, by simpa using h1, h2, h3, ?_, h5⟩
  rw [h4, hval, haddr, loopStart_mapAt]
  simp

/-- C1: when the body of a loop is rendered for the `i`-th time (counting from
0) of `n` items, the loop metadata has `length = n`, `index = i + 1`,
`index0 = i`, `first = (i = 0)` and `last = (i = n - 1)`; with one item both
`first` and `last` are true in the only iteration; a loop that returns has
rendered its body `n` times; and the items iterated are those of the converted
source, or the ones the filter retains when there is a filter. -/
theorem ForStatement_loop_metadata (E : Externals) (depth : Nat) (vars : List String)
    (value : Expression) (ifExpr : Option Expression) (mainBody : Statement)
    (elseBody : Option Statement) (values : RenderContext) (s : ForStatement.LoopSetup)
    (hp : ForStatement.prepare E vars value ifExpr values = .ok (.inr s)) :
    (∀ (i : Nat) (c : RenderContext),
      (ForStatement.bodyContexts E (Render E depth mainBody) vars value ifExpr values)[i]? =
        some c →
      i < s.loopItems.length ∧
      (c.mapAt values.mapStore.length).find "length" =
        some (.int (s.loopItems.length : Int)) ∧
      (c.mapAt values.mapStore.length).find "index" = some (.int ((i : Int) + 1)) ∧
      (c.mapAt values.mapStore.length).find "index0" = some (.int (i : Int)) ∧
      (c.mapAt values.mapStore.length).find "first" = some (.bool (decide (i = 0))) ∧
      (c.mapAt values.mapStore.length).find "last" =
        some (.bool (decide (i = s.loopItems.length - 1))) ∧
      (s.loopItems.length = 1 →
        (c.mapAt values.mapStore.length).find "first" = some (.bool true) ∧
        (c.mapAt values.mapStore.length).find "last" = some (.bool true))) ∧
    ((∃ r, Render E depth (.forStmt vars value ifExpr mainBody elseBody) values = .ok r) →
      (ForStatement.bodyContexts E (Render E depth mainBody) vars value ifExpr values).length =
        s.loopItems.length) ∧
    (∀ v S, E.Evaluate value values = .ok v → E.ConvertToList v = some S →
      (ifExpr = none → s.loopItems = S) ∧
      (∀ (g : Expression) (gv : InternalValue → InternalValue), ifExpr = some g →
        (∀ x ∈ S, E.Evaluate g (ForStatement.filterContext E vars values x) = .ok (gv x)) →
        s.loopItems = S.filter (fun x => E.ConvertToBool (gv x)))) := by
  obtain ⟨hidx, haddr, hval⟩ := prepare_inr E vars value ifExpr values s hp
  refine ⟨?_, ?_, ?_⟩
  · intro i c hc
    obtain ⟨hi, w1, rfl, h2, h3, h4, -⟩ :=
      bodyContexts_entry E depth vars value ifExpr mainBody values s hp i c hc
    rw [← haddr, enterIteration_mapAt E vars s i w1 h2]
    have hfirst : ((i : Int) == 0) = decide (i = 0) := by
      by_cases h : i = 0 <;> simp [h]
    have hlast : ((i : Int) == (s.loopItems.length : Int) - 1) =
        decide (i = s.loopItems.length - 1) := by
      by_cases h : i = s.loopItems.length - 1
      · simp only [h, decide_True, beq_iff_eq]; omega
      · simp only [h, decide_False, beq_eq_false_iff_ne, ne_eq]; omega
    have hlen := updateLoopVar_find_length s.loopItems i (w1.mapAt s.loopAddr)
    have hindex : (ForStatement.updateLoopVar s.loopItems i (w1.mapAt s.loopAddr)).find "index" =
        some (.int ((i : Int) + 1)) := by
      simp only [ForStatement.updateLoopVar]
      split <;> split <;> simp
    have hindex0 : (ForStatement.updateLoopVar s.loopItems i (w1.mapAt s.loopAddr)).find "index0" =
        some (.int (i : Int)) := by
      simp only [ForStatement.updateLoopVar]
      split <;> split <;> simp
    have hf : (ForStatement.updateLoopVar s.loopItems i (w1.mapAt s.loopAddr)).find "first" =
        some (.bool (decide (i = 0))) := by
      simp only [ForStatement.updateLoopVar, hfirst]
      split <;> split <;> simp
    have hl : (ForStatement.updateLoopVar s.loopItems i (w1.mapAt s.loopAddr)).find "last" =
        some (.bool (decide (i = s.loopItems.length - 1))) := by
      simp only [ForStatement.updateLoopVar, hlast]
      split <;> split <;> simp
    refine ⟨hi, hlen.trans h4, hindex, hindex0, hf, hl, ?_⟩
    intro h1
    have hi0 : i = 0 := by omega
    rw [hf, hl]
    simp [hi0, h1]
  · rintro ⟨r, hr⟩
    simp only [Render, RenderWith, ForStatement.Render, hp] at hr
    simp only [ForStatement.bodyContexts, hp]
    split at hr
    · cases hr
    · rename_i out w1 hloop
      exact (mainLoop_of_contexts E _ vars s _ _ _
        (mainLoop_contexts_of_ok E _ vars s _ _ _ _ hloop)).1
  · intro v S hv hS
    constructor
    · intro hnone
      subst hnone
      rw [prepare_noFilter E vars value values v S hv hS] at hp
      simp only [Except.ok.injEq, Sum.inr.injEq] at hp
      rw [← hp]
    · intro g gv hsome hg
      subst hsome
      rw [prepare_filter E vars value g values v S gv hv hS hg] at hp
      simp only [Except.ok.injEq, Sum.inr.injEq] at hp
      rw [← hp]

theorem ForStatement_loop_metadata_witness :
    ((demoEntry1.mapAt 0).find "length" = some (.int 3) ∧
      (demoEntry1.mapAt 0).find "index" = some (.int 2) ∧
      (demoEntry1.mapAt 0).find "index0" = some (.int 1) ∧
      (demoEntry1.mapAt 0).find "first" = some (.bool false) ∧
      (demoEntry1.mapAt 0).find "last" = some (.bool false)) ∧
    (ForStatement.bodyContexts demoE (Render demoE 0 (.exprOutput "x")) ["x"] "items" none
      demoValues).length = 3 :=
  have h := ForStatement_loop_metadata demoE 0 ["x"] "items" none (.exprOutput "x") none
    demoValues demoSetup (by rfl)
  have h1 := h.1 1 demoEntry1 (by rfl)
  ⟨⟨h1.2.1, h1.2.2.1, h1.2.2.2.1, h1.2.2.2.2.1, h1.2.2.2.2.2.1⟩, h.2.1 ⟨_, rfl⟩⟩

/-- C2: when the body of a loop is rendered for the `i`-th time (counting from
0) of `n` items, the loop metadata has no key `previtem` if `i = 0` and maps it
to item `i - 1` otherwise, and has no key `nextitem` if `i = n - 1` and maps it
to item `i + 1` otherwise. -/
theorem ForStatement_loop_neighbours (E : Externals) (depth : Nat) (vars : List String)
    (value : Expression) (ifExpr : Option Expression) (mainBody : Statement)
    (values : RenderContext) (s : ForStatement.LoopSetup)
    (hp : ForStatement.prepare E vars value ifExpr values = .ok (.inr s))
    (i : Nat) (c : RenderContext)
    (hc : (ForStatement.bodyContexts E (Render E depth mainBody) vars value ifExpr values)[i]? =
      some c) :
    i < s.loopItems.length ∧
    (i = 0 → (c.mapAt values.mapStore.length).find "previtem" = none) ∧
    (i ≠ 0 → ∃ x, s.loopItems[i - 1]? = some x ∧
      (c.mapAt values.mapStore.length).find "previtem" = some x) ∧
    (i = s.loopItems.length - 1 → (c.mapAt values.mapStore.length).find "nextitem" = none) ∧
    (i ≠ s.loopItems.length - 1 → ∃ x, s.loopItems[i + 1]? = some x ∧
      (c.mapAt values.mapStore.length).find "nextitem" = some x) := by
  obtain ⟨hidx, haddr, hval⟩ := prepare_inr E vars value ifExpr values s hp
  obtain ⟨hi, w1, rfl, h2, h3, h4, h5⟩ :=
    bodyContexts_entry E depth vars value ifExpr mainBody values s hp i c hc
  rw [← haddr, enterIteration_mapAt E vars s i w1 h2]
  refine ⟨hi, ?_, ?_, ?_, ?_⟩
  · intro h0
    subst h0
    rw [h5 rfl, hval, haddr, loopStart_mapAt]
    simp only [ForStatement.updateLoopVar]
    split <;> simp
  · intro h0
    have hlt : i - 1 < s.loopItems.length := by omega
    refine ⟨s.loopItems[i - 1], List.getElem?_eq_getElem hlt, ?_⟩
    have hne : ((i : Int) != 0) = true := by
      simp only [bne_iff_ne, ne_eq]; omega
    have hget : GetValueByIndex s.loopItems (i - 1) = s.loopItems[i - 1] := by
      simp [GetValueByIndex, List.getD_eq_getElem?_getD, List.getElem?_eq_getElem hlt]
    simp only [ForStatement.updateLoopVar, hne, if_true, hget]
    split <;> simp
  · intro hlast
    have hne : ((i : Int) != (s.loopItems.length : Int) - 1) = false := by
      simp only [bne_eq_false_iff_eq]; omega
    simp only [ForStatement.updateLoopVar, hne]
    simp
  · intro hlast
    have hlt : i + 1 < s.loopItems.length := by omega
    refine ⟨s.loopItems[i + 1], List.getElem?_eq_getElem hlt, ?_⟩
    have hne : ((i : Int) != (s.loopItems.length : Int) - 1) = true := by
      simp only [bne_iff_ne, ne_eq]; omega
    have hget : GetValueByIndex s.loopItems (i + 1) = s.loopItems[i + 1] := by
      simp [GetValueByIndex, List.getD_eq_getElem?_getD, List.getElem?_eq_getElem hlt]
    simp only [ForStatement.updateLoopVar, hne, if_true, hget]
    simp

theorem ForStatement_loop_neighbours_witness :
    ((demoEntry0.mapAt 0).find "previtem" = none ∧
      (demoEntry0.mapAt 0).find "nextitem" = some (.string "b")) ∧
    ((demoEntry2.mapAt 0).find "previtem" = some (.string "b") ∧
      (demoEntry2.mapAt 0).find "nextitem" = none) :=
  have h0 := ForStatement_loop_neighbours demoE 0 ["x"] "items" none (.exprOutput "x")
    demoValues demoSetup (by rfl) 0 demoEntry0 (by rfl)
  have h2 := ForStatement_loop_neighbours demoE 0 ["x"] "items" none (.exprOutput "x")
    demoValues demoSetup (by rfl) 2 demoEntry2 (by rfl)
  ⟨⟨h0.2.1 rfl, by
      obtain ⟨x, hx, hn⟩ := h0.2.2.2.2 (by decide)
      cases hx
      exact hn⟩,
    ⟨by
      obtain ⟨x, hx, hn⟩ := h2.2.2.1 (by decide)
      cases hx
      exact hn, h2.2.2.2.1 rfl⟩⟩

theorem Render_forStmt_empty (E : Externals) (depth : Nat) (vars : List String)
    (value : Expression) (ifExpr : Option Expression) (mainBody : Statement)
    (elseBody : Option Statement) (values : RenderContext) (s : ForStatement.LoopSetup)
    (hp : ForStatement.prepare E vars value ifExpr values = .ok (.inr s))
    (hempty : s.loopItems = []) :
    Render E depth (.forStmt vars value ifExpr mainBody elseBody) values =
      match elseBody with
      | some e => ForStatement.exitScopeAfter (Render E depth e (ForStatement.loopStart values 0))
      | none => .ok ("", (ForStatement.loopStart values 0).ExitScope) := by
  obtain ⟨-, -, hval⟩ := prepare_inr E vars value ifExpr values s hp
  simp only [hempty, List.length_nil] at hval
  cases elseBody with
  | none =>
    simp [Render, RenderWith, ForStatement.Render, hp, hempty, ForStatement.mainLoop, hval,
      RenderOpt]
  | some e =>
    simp only [Render, RenderWith, ForStatement.Render, hp, hempty, ForStatement.mainLoop, hval,
      RenderOpt, List.length_nil, ForStatement.exitScopeAfter]
    cases hr : RenderWith E (RenderDyn E depth) e (ForStatement.loopStart values 0) with
    | error err => simp [hr]
    | ok r => simp [hr]

/-- C3: a loop with a filter iterates exactly the items for which the filter
holds (the filter being evaluated with the loop variables bound to the
candidate), in their original order: the `i`-th body render has the loop
variables bound to the `i`-th retained item; when no body render throws there
is one body render per retained item and the output of the loop is the
concatenation of the texts of these renders, in order (if nothing is retained
the output is that of the else-body, when there is one). -/
theorem ForStatement_filter_iterates (E : Externals) (depth : Nat) (vars : List String)
    (value g : Expression) (mainBody : Statement) (elseBody : Option Statement)
    (values : RenderContext) (v : InternalValue) (S : List InternalValue)
    (gv : InternalValue → InternalValue)
    (hv : E.Evaluate value values = .ok v) (hS : E.ConvertToList v = some S)
    (hg : ∀ x ∈ S, E.Evaluate g (ForStatement.filterContext E vars values x) = .ok (gv x)) :
    (∀ (i : Nat) (c : RenderContext),
      (ForStatement.bodyContexts E (Render E depth mainBody) vars value (some g) values)[i]? =
        some c →
      ∃ x, (S.filter (fun x => E.ConvertToBool (gv x)))[i]? = some x ∧
        ∀ name ∈ vars, (c.scopeAt values.scopes.length).find name =
          some (if vars.length > 1 then E.Subscript x name else x)) ∧
    ((∀ c ∈ ForStatement.bodyContexts E (Render E depth mainBody) vars value (some g) values,
        ∃ r, Render E depth mainBody c = .ok r) →
      (ForStatement.bodyContexts E (Render E depth mainBody) vars value (some g) values).length =
        (S.filter (fun x => E.ConvertToBool (gv x))).length ∧
      (S.filter (fun x => E.ConvertToBool (gv x)) ≠ [] ∨ elseBody = none →
        ∃ values1, Render E depth (.forStmt vars value (some g) mainBody elseBody) values =
          .ok (String.join (ForStatement.bodyTexts (Render E depth mainBody)
            (ForStatement.bodyContexts E (Render E depth mainBody) vars value (some g) values)),
            values1)) ∧
      (S.filter (fun x => E.ConvertToBool (gv x)) = [] → ∀ e, elseBody = some e →
        Render E depth (.forStmt vars value (some g) mainBody elseBody) values =
          ForStatement.exitScopeAfter (Render E depth e (ForStatement.loopStart values 0)))) := by
  have hp := prepare_filter E vars value g values v S gv hv hS hg
  constructor
  · intro i c hc
    obtain ⟨hi, w1, rfl, -, h3, -, -⟩ :=
      bodyContexts_entry E depth vars value (some g) mainBody values _ hp i c hc
    dsimp only at hi h3 ⊢
    refine ⟨_, List.getElem?_eq_getElem hi, ?_⟩
    intro name hname
    have := enterIteration_scopeAt E vars
      { loopItems := S.filter (fun x => E.ConvertToBool (gv x)),
        scopeIdx := values.scopes.length, loopAddr := values.mapStore.length,
        values := ForStatement.loopStart values
          (S.filter (fun x => E.ConvertToBool (gv x))).length } i w1 h3
    dsimp only at this
    rw [this, boundScope_find]
    simp [hname, GetValueByIndex, List.getD_eq_getElem?_getD, List.getElem?_eq_getElem hi]
  · intro hall
    simp only [ForStatement.bodyContexts, hp] at hall ⊢
    obtain ⟨hlen, w1, hloop⟩ := mainLoop_of_contexts E _ vars _ _ _ _ hall
    refine ⟨hlen, ?_, ?_⟩
    · intro hor
      refine ⟨w1.ExitScope, ?_⟩
      simp only [Render, RenderWith, ForStatement.Render, hp] at hloop ⊢
      simp only [hloop]
      rcases hor with hne | hnone
      · have : (S.filter (fun x => E.ConvertToBool (gv x))).length ≠ 0 := by
          simpa using hne
        simp [this]
      · subst hnone
        simp [RenderOpt]
    · intro hnil e he
      subst he
      exact Render_forStmt_empty E depth vars value (some g) mainBody (some e) values _ hp hnil

theorem ForStatement_filter_iterates_witness :
    (demoFilteredEntry1.scopeAt 1).find "x" = some (.string "c") ∧
    (ForStatement.bodyContexts demoE (Render demoE 0 (.exprOutput "x")) ["x"] "items"
      (some "x is not b") demoValues).length = 2 ∧
    (Render demoE 0 demoFiltered demoValues).map Prod.fst = .ok "ac" :=
  have h := ForStatement_filter_iterates demoE 0 ["x"] "items" "x is not b" (.exprOutput "x")
    none demoValues (.list [.string "a", .string "b", .string "c"])
    [.string "a", .string "b", .string "c"] demoGuardValue rfl rfl
    (by
      intro x hx
      simp only [List.mem_cons, List.mem_singleton, List.not_mem_nil, or_false] at hx
      rcases hx with rfl | rfl | rfl <;> rfl)
  have h2 := h.2 (fun c _ => ⟨(demoE.ValueToText ((c.FindValue "x").getD .empty), c), rfl⟩)
  ⟨by
    obtain ⟨x, hx, hb⟩ := h.1 1 demoFilteredEntry1 rfl
    cases hx
    exact hb "x" (List.mem_singleton.mpr rfl), h2.1, by
    obtain ⟨values1, h1⟩ := h2.2.1 (Or.inr rfl)
    rw [demoFiltered, h1]
    rfl⟩

/-- C4: on a loop source that is not a sequence, `ForStatement::Render` returns
with the scope it pushed still on the chain: the chain is one scope deeper than
on entry. -/
theorem ForStatement_early_return_keeps_scope :
    (Render demoE 0 demoNotConverted demoValues).map (fun r => r.2.scopes.length) = .ok 2 ∧
    demoValues.scopes.length = 1 :=
  ⟨rfl, rfl⟩

/-- C6: when the source of a loop does not convert to a sequence, `Render`
returns normally, writes nothing, and renders neither the body nor the
else-body. -/
theorem ForStatement_silent_on_non_sequence (E : Externals) (depth : Nat) (vars : List String)
    (value : Expression) (ifExpr : Option Expression) (mainBody : Statement)
    (elseBody : Option Statement) (values : RenderContext) (v : InternalValue)
    (hv : E.Evaluate value values = .ok v) (hS : E.ConvertToList v = none) :
    Render E depth (.forStmt vars value ifExpr mainBody elseBody) values =
      .ok ("",
        { scopes := values.scopes ++
            [InternalValueMap.empty.set "loop" (.mapAdapter values.mapStore.length)],
          mapStore := values.mapStore ++ [InternalValueMap.empty],
          objects := values.objects }) ∧
    ForStatement.bodyContexts E (Render E depth mainBody) vars value ifExpr values = [] ∧
    ForStatement.elseContext E (Render E depth mainBody) vars value ifExpr values = none := by
  have hp := prepare_notConverted E vars value ifExpr values v hv hS
  refine ⟨?_, ?_, ?_⟩
  · simp only [Render, RenderWith, ForStatement.Render, hp]
  · simp only [ForStatement.bodyContexts, hp]
  · simp only [ForStatement.elseContext, hp]

theorem ForStatement_silent_on_non_sequence_witness :
    (Render demoE 0 demoNotConverted demoValues).map Prod.fst = .ok "" :=
  have h := (ForStatement_silent_on_non_sequence demoE 0 ["x"] "five" none (.rawText "body")
    (some (.rawText "else")) demoValues (.int 5) rfl rfl).1
  by
    rw [demoNotConverted, h]
    rfl

theorem prepare_empty (E : Externals) (vars : List String) (value : Expression)
    (ifExpr : Option Expression) (values : RenderContext) (v : InternalValue)
    (hv : E.Evaluate value values = .ok v) (hS : E.ConvertToList v = some []) :
    ForStatement.prepare E vars value ifExpr values =
      .ok (.inr
        { loopItems := [], scopeIdx := values.scopes.length,
          loopAddr := values.mapStore.length, values := ForStatement.loopStart values 0 }) := by
  cases ifExpr with
  | none => exact prepare_noFilter E vars value values v [] hv hS
  | some g =>
    exact prepare_filter E vars value g values v [] id hv hS (fun x hx => by simp at hx)

/-- C5 (as amended): when a loop has no item to iterate and has an else-body,
the else-body is rendered while the scope of the loop is still the innermost
scope: that scope binds `loop` (to the loop metadata, in which only `length`,
equal to 0, is set) and nothing else, the scopes beneath it are the chain on
entry, and the scope of the loop is popped after the else-body. -/
theorem ForStatement_else_context (E : Externals) (depth : Nat) (vars : List String)
    (value : Expression) (ifExpr : Option Expression) (mainBody e : Statement)
    (values : RenderContext) (s : ForStatement.LoopSetup)
    (hp : ForStatement.prepare E vars value ifExpr values = .ok (.inr s))
    (hempty : s.loopItems = []) :
    ∃ c, ForStatement.elseContext E (Render E depth mainBody) vars value ifExpr values = some c ∧
      Render E depth (.forStmt vars value ifExpr mainBody (some e)) values =
        ForStatement.exitScopeAfter (Render E depth e c) ∧
      c.scopes = values.scopes ++
        [InternalValueMap.empty.set "loop" (.mapAdapter values.mapStore.length)] ∧
      c.FindValue "loop" = some (.mapAdapter values.mapStore.length) ∧
      (∀ name, name ≠ "loop" → (c.scopeAt values.scopes.length).find name = none) ∧
      c.mapAt values.mapStore.length = InternalValueMap.empty.set "length" (.int 0) := by
  obtain ⟨-, -, hval⟩ := prepare_inr E vars value ifExpr values s hp
  simp only [hempty, List.length_nil] at hval
  refine ⟨ForStatement.loopStart values 0, ?_, ?_, rfl, ?_, ?_, ?_⟩
  · simp [ForStatement.elseContext, hp, hempty, ForStatement.mainLoop, hval]
  · exact Render_forStmt_empty E depth vars value ifExpr mainBody (some e) values s hp hempty
  · simp [RenderContext.FindValue, ForStatement.loopStart]
  · intro name hname
    rw [loopStart_scopeAt]
    simp [hname]
  · simpa using loopStart_mapAt values 0

theorem ForStatement_else_context_witness :
    (Render demoE 0 demoEmptyLoop demoValues).map Prod.fst = .ok "loop visible" := by
  obtain ⟨c, -, h, hs, -, -, -⟩ := ForStatement_else_context demoE 0 ["x"] "nothing" none
    (.rawText "body") demoElseProbe demoValues
    { loopItems := [], scopeIdx := 1, loopAddr := 0,
      values := ForStatement.loopStart demoValues 0 } rfl rfl
  rw [demoEmptyLoop, h]
  have hfind : c.FindValue "loop" = some (.mapAdapter 0) := by
    rw [RenderContext.FindValue, hs]
    rfl
  simp only [demoElseProbe, Render, RenderWith, IfStatement.Render, demoE, demoEvaluate, hfind]
  rfl

/-- C5 (as stated) fails: the else-body of a loop over an empty sequence is
rendered against a chain that is one scope deeper than the chain on entry and
in which `loop` is bound, though the chain on entry binds no `loop`; an
else-body that tests for `loop` prints `loop visible` inside the loop and
`no loop` against the chain on entry. -/
theorem ForStatement_else_sees_loop_scope :
    (ForStatement.elseContext demoE (Render demoE 0 (.rawText "body")) ["x"] "nothing" none
      demoValues).map (fun c => c.scopes.length) = some 2 ∧
    demoValues.scopes.length = 1 ∧
    (ForStatement.elseContext demoE (Render demoE 0 (.rawText "body")) ["x"] "nothing" none
      demoValues).map (fun c => (c.FindValue "loop").isSome) = some true ∧
    (demoValues.FindValue "loop").isSome = false ∧
    (Render demoE 0 demoEmptyLoop demoValues).map Prod.fst = .ok "loop visible" ∧
    (Render demoE 0 demoElseProbe demoValues).map Prod.fst = .ok "no loop" :=
  ⟨rfl, rfl, rfl, rfl, rfl, rfl⟩

/-- C7: a loop over an empty sequence with an else-body renders its main body
zero times, and its output is exactly the output of one render of the
else-body. -/
theorem ForStatement_empty_renders_else (E : Externals) (depth : Nat) (vars : List String)
    (value : Expression) (ifExpr : Option Expression) (mainBody e : Statement)
    (values : RenderContext) (v : InternalValue)
    (hv : E.Evaluate value values = .ok v) (hS : E.ConvertToList v = some []) :
    ForStatement.bodyContexts E (Render E depth mainBody) vars value ifExpr values = [] ∧
    Render E depth (.forStmt vars value ifExpr mainBody (some e)) values =
      ForStatement.exitScopeAfter (Render E depth e (ForStatement.loopStart values 0)) ∧
    (Render E depth (.forStmt vars value ifExpr mainBody (some e)) values).map Prod.fst =
      (Render E depth e (ForStatement.loopStart values 0)).map Prod.fst := by
  have hp := prepare_empty E vars value ifExpr values v hv hS
  have hr := Render_forStmt_empty E depth vars value ifExpr mainBody (some e) values _ hp rfl
  refine ⟨?_, hr, ?_⟩
  · simp [ForStatement.bodyContexts, hp, ForStatement.mainLoopContexts]
  · rw [hr]
    dsimp only
    cases hre : Render E depth e (ForStatement.loopStart values 0) with
    | error err => rfl
    | ok r => rfl

theorem ForStatement_empty_renders_else_witness :
    (Render demoE 0 demoUnfilteredEmpty demoValues).map Prod.fst = .ok "else" := by
  have h := (ForStatement_empty_renders_else demoE 0 ["x"] "nothing" none (.exprOutput "x")
    (.rawText "else") demoValues (.list []) rfl rfl).2.2
  rw [demoUnfilteredEmpty, h]
  rfl

/-- C8: a loop whose filter is false for every item gives the same result
(output, scope chain, and the rest of the render context, or the same error) as
the same loop without a filter over an empty sequence. -/
theorem ForStatement_all_filtered_eq_empty (E : Externals) (depth : Nat) (vars : List String)
    (value value1 g : Expression) (mainBody : Statement) (elseBody : Option Statement)
    (values : RenderContext) (v v1 : InternalValue) (S : List InternalValue)
    (gv : InternalValue → InternalValue)
    (hv : E.Evaluate value values = .ok v) (hS : E.ConvertToList v = some S)
    (hg : ∀ x ∈ S, E.Evaluate g (ForStatement.filterContext E vars values x) = .ok (gv x))
    (hfalse : ∀ x ∈ S, E.ConvertToBool (gv x) = false)
    (hv1 : E.Evaluate value1 values = .ok v1) (hS1 : E.ConvertToList v1 = some []) :
    Render E depth (.forStmt vars value (some g) mainBody elseBody) values =
      Render E depth (.forStmt vars value1 none mainBody elseBody) values := by
  have hp := prepare_filter E vars value g values v S gv hv hS hg
  have hnil : S.filter (fun x => E.ConvertToBool (gv x)) = [] := by
    rw [List.filter_eq_nil_iff]
    intro x hx
    simp [hfalse x hx]
  have hp1 := prepare_empty E vars value1 none values v1 hv1 hS1
  rw [Render_forStmt_empty E depth vars value (some g) mainBody elseBody values _ hp hnil,
    Render_forStmt_empty E depth vars value1 none mainBody elseBody values _ hp1 rfl]

theorem ForStatement_all_filtered_eq_empty_witness :
    Render demoE 0 demoAllFiltered demoValues = Render demoE 0 demoUnfilteredEmpty demoValues ∧
    (Render demoE 0 demoAllFiltered demoValues).map Prod.fst = .ok "else" :=
  have h := ForStatement_all_filtered_eq_empty demoE 0 ["x"] "items" "nothing" "false"
    (.exprOutput "x") (some (.rawText "else")) demoValues
    (.list [.string "a", .string "b", .string "c"]) (.list [])
    [.string "a", .string "b", .string "c"] (fun _ => .bool false) rfl rfl
    (fun _ _ => rfl) (fun _ _ => rfl) rfl rfl
  ⟨h, rfl⟩

theorem renderElseBranches_skip (E : Externals) (values : RenderContext)
    (pre rest : List (Option Expression × Renderer))
    (hpre : ∀ p ∈ pre, ElseBranchStatement.ShouldRender E p.1 values = .ok false) :
    IfStatement.renderElseBranches E (pre ++ rest) values =
      IfStatement.renderElseBranches E rest values := by
  induction pre with
  | nil => rfl
  | cons p pre ih =>
    obtain ⟨g, render⟩ := p
    have hp := hpre (g, render) (List.mem_cons_self _ _)
    simp only [List.cons_append, IfStatement.renderElseBranches, hp]
    exact ih (fun q hq => hpre q (List.mem_cons_of_mem _ hq))

theorem ElseBranchRenderers_append (E : Externals) (dyn : Statement → Renderer)
    (pre post : List ElseBranchStatement) :
    ElseBranchRenderers E dyn (pre ++ post) =
      ElseBranchRenderers E dyn pre ++ ElseBranchRenderers E dyn post := by
  induction pre with
  | nil => rfl
  | cons b pre ih =>
    obtain ⟨g, body⟩ := b
    simp only [List.cons_append, ElseBranchRenderers]
    exact congrArg _ ih

theorem ElseBranchRenderers_guards (E : Externals) (dyn : Statement → Renderer)
    (values : RenderContext) (branches : List ElseBranchStatement)
    (h : ∀ b ∈ branches, ElseBranchStatement.ShouldRender E b.expr values = .ok false) :
    ∀ p ∈ ElseBranchRenderers E dyn branches,
      ElseBranchStatement.ShouldRender E p.1 values = .ok false := by
  induction branches with
  | nil => intro p hp; simp [ElseBranchRenderers] at hp
  | cons b rest ih =>
    obtain ⟨g, body⟩ := b
    intro p hp
    simp only [ElseBranchRenderers, List.mem_cons] at hp
    rcases hp with rfl | hp
    · exact h (.mk g body) (List.mem_cons_self _ _)
    · exact ih (fun q hq => h q (List.mem_cons_of_mem _ hq)) p hp

theorem ShouldRender_guard (E : Externals) (e : Expression) (values : RenderContext)
    (v : InternalValue) (h : E.Evaluate e values = .ok v) :
    ElseBranchStatement.ShouldRender E (some e) values = .ok (E.BooleanEvaluator v) := by
  simp only [ElseBranchStatement.ShouldRender, h]

theorem ShouldRender_of_guard_false (E : Externals) (g : Option Expression)
    (values : RenderContext)
    (h : ∃ e v, g = some e ∧ E.Evaluate e values = .ok v ∧ E.BooleanEvaluator v = false) :
    ElseBranchStatement.ShouldRender E g values = .ok false := by
  obtain ⟨e, v, rfl, hv, hb⟩ := h
  rw [ShouldRender_guard E e values v hv, hb]

theorem ShouldRender_of_eligible (E : Externals) (g : Option Expression)
    (values : RenderContext)
    (h : g = none ∨
      ∃ e v, g = some e ∧ E.Evaluate e values = .ok v ∧ E.BooleanEvaluator v = true) :
    ElseBranchStatement.ShouldRender E g values = .ok true := by
  rcases h with rfl | ⟨e, v, rfl, hv, hb⟩
  · rfl
  · rw [ShouldRender_guard E e values v hv, hb]

/-- C9: an `if` whose condition (the value of `m_expr`, coerced to a boolean)
is true renders exactly its main body; otherwise it renders exactly the body
of the first else-branch, in list order, that has no guard or whose guard
evaluates to a value that coerces to true (every branch before it having a
guard whose value coerces to false), and no other branch; and it renders
nothing when every else-branch has a guard whose value coerces to false
(in particular when there is no else-branch). -/
theorem IfStatement_first_eligible (E : Externals) (depth : Nat) (expr : Expression)
    (mainBody : Statement) (elseBranches : List ElseBranchStatement) (values : RenderContext)
    (val : InternalValue) (hval : E.Evaluate expr values = .ok val) :
    (E.BooleanEvaluator val = true →
      Render E depth (.ifStmt expr mainBody elseBranches) values =
        Render E depth mainBody values) ∧
    (E.BooleanEvaluator val = false →
      ∀ (pre post : List ElseBranchStatement) (g : Option Expression) (body : Statement),
        elseBranches = pre ++ .mk g body :: post →
        (∀ b ∈ pre, ∃ e v, b.expr = some e ∧ E.Evaluate e values = .ok v ∧
          E.BooleanEvaluator v = false) →
        (g = none ∨
          ∃ e v, g = some e ∧ E.Evaluate e values = .ok v ∧ E.BooleanEvaluator v = true) →
        Render E depth (.ifStmt expr mainBody elseBranches) values =
          Render E depth body values) ∧
    (E.BooleanEvaluator val = false →
      (∀ b ∈ elseBranches, ∃ e v, b.expr = some e ∧ E.Evaluate e values = .ok v ∧
        E.BooleanEvaluator v = false) →
      Render E depth (.ifStmt expr mainBody elseBranches) values = .ok ("", values)) := by
  refine ⟨?_, ?_, ?_⟩
  · intro hb
    simp only [Render, RenderWith, IfStatement.Render, hval, hb, if_true]
  · intro hb pre post g body hsplit hpre hg
    subst hsplit
    have hpre1 : ∀ b ∈ pre, ElseBranchStatement.ShouldRender E b.expr values = .ok false :=
      fun b hb1 => ShouldRender_of_guard_false E b.expr values (hpre b hb1)
    have hg1 := ShouldRender_of_eligible E g values hg
    simp only [Render, RenderWith, IfStatement.Render, hval, hb, ElseBranchRenderers_append]
    rw [renderElseBranches_skip E values _ _
      (ElseBranchRenderers_guards E _ values pre hpre1)]
    simp [ElseBranchRenderers, IfStatement.renderElseBranches, hg1, ElseBranchStatement.Render]
  · intro hb hall
    have hall1 : ∀ b ∈ elseBranches,
        ElseBranchStatement.ShouldRender E b.expr values = .ok false :=
      fun b hb1 => ShouldRender_of_guard_false E b.expr values (hall b hb1)
    simp only [Render, RenderWith, IfStatement.Render, hval, hb]
    have := renderElseBranches_skip E values _ []
      (ElseBranchRenderers_guards E (RenderDyn E depth) values elseBranches hall1)
    simp only [List.append_nil] at this
    rw [this]
    rfl

theorem IfStatement_first_eligible_witness :
    Render demoE 0 demoIfElifTrue demoValues = .ok ("A", demoValues) ∧
    Render demoE 0 demoIfElse demoValues = .ok ("B", demoValues) ∧
    Render demoE 0 (.ifStmt "true" (.rawText "main") [.mk none (.rawText "B")]) demoValues =
      .ok ("main", demoValues) ∧
    Render demoE 0 (.ifStmt "false" (.rawText "main") [.mk (some "false") (.rawText "A")])
      demoValues = .ok ("", demoValues) :=
  ⟨(IfStatement_first_eligible demoE 0 "false" (.rawText "main")
      [.mk (some "false") (.rawText "skipped"), .mk (some "true") (.rawText "A"),
       .mk none (.rawText "B")] demoValues (.bool false) rfl).2.1 rfl
      [.mk (some "false") (.rawText "skipped")] [.mk none (.rawText "B")] (some "true")
      (.rawText "A") rfl
      (by
        intro b hb
        simp only [List.mem_singleton] at hb
        subst hb
        exact ⟨"false", .bool false, rfl, rfl, rfl⟩)
      (Or.inr ⟨"true", .bool true, rfl, rfl, rfl⟩),
    (IfStatement_first_eligible demoE 0 "false" (.rawText "main")
      [.mk (some "false") (.rawText "skipped"), .mk none (.rawText "B")] demoValues
      (.bool false) rfl).2.1 rfl
      [.mk (some "false") (.rawText "skipped")] [] none (.rawText "B") rfl
      (by
        intro b hb
        simp only [List.mem_singleton] at hb
        subst hb
        exact ⟨"false", .bool false, rfl, rfl, rfl⟩)
      (Or.inl rfl),
    (IfStatement_first_eligible demoE 0 "true" (.rawText "main") [.mk none (.rawText "B")]
      demoValues (.bool true) rfl).1 rfl,
    (IfStatement_first_eligible demoE 0 "false" (.rawText "main")
      [.mk (some "false") (.rawText "A")] demoValues (.bool false) rfl).2.2 rfl
      (by
        intro b hb
        simp only [List.mem_singleton] at hb
        subst hb
        exact ⟨"false", .bool false, rfl, rfl, rfl⟩)⟩

/-- C10: a `set` with an expression and one target name `x` binds `x` in the
innermost scope to the value of the expression, whatever `x` was bound to
there; the other bindings of the innermost scope, the outer scopes (an outer
binding of `x` included), the depth of the chain and the rest of the render
context are unchanged, and nothing is written. -/
theorem SetStatement_single_target (E : Externals) (depth : Nat) (x : String) (e : Expression)
    (values : RenderContext) (val : InternalValue) (outer : List InternalValueMap)
    (inner : InternalValueMap)
    (hval : E.Evaluate e values = .ok val) (hs : values.scopes = outer ++ [inner]) :
    ∃ inner1 values1,
      Render E depth (.setStmt [x] (some e)) values = .ok ("", values1) ∧
      values1.scopes = outer ++ [inner1] ∧
      inner1.find x = some val ∧
      (∀ k, k ≠ x → inner1.find k = inner.find k) ∧
      values1.scopes.length = values.scopes.length ∧
      values1.mapStore = values.mapStore ∧
      values1.objects = values.objects := by
  refine ⟨inner.set x val,
    { scopes := outer ++ [inner.set x val], mapStore := values.mapStore,
      objects := values.objects }, ?_, rfl, ?_, ?_, ?_, rfl, rfl⟩
  · have hmod := modify_length_append (fun scope : InternalValueMap => scope.set x val) outer
      inner []
    simp only [Render, RenderWith, SetStatement.Render, hval, RenderContext.assign,
      RenderContext.GetCurrentScope, hs, List.length_append, List.length_singleton,
      Nat.add_sub_cancel, hmod]
  · simp
  · intro k hk
    simp [hk]
  · simp [hs]

theorem SetStatement_single_target_witness :
    (Render demoE 0 (.setStmt ["x"] (some "five")) demoScoped).map
      (fun r => (r.1, r.2.scopes.length, demoShow (r.2.FindValue "x"),
        demoShow ((r.2.scopeAt 0).find "x"), demoShow ((r.2.scopeAt 1).find "y"))) =
      .ok ("", 2, "5", "outer", "kept") := by
  obtain ⟨inner1, values1, h, hs, hx, hother, hlen, -⟩ :=
    SetStatement_single_target demoE 0 "x" "five"
      demoScoped (.int 5) [InternalValueMap.empty.set "x" (.string "outer")]
      ((InternalValueMap.empty.set "x" (.string "inner")).set "y" (.string "kept")) rfl rfl
  have hy := hother "y" (by decide)
  rw [h]
  simp only [Except.map, hlen, RenderContext.FindValue, RenderContext.scopeAt, hs,
    List.singleton_append, List.reverse_cons, List.reverse_nil, List.nil_append,
    List.findSome?_cons, hx, List.getD_cons_zero, List.getD_cons_succ, hy]
  rfl

/-- C13: an `extends` whose target is not a path, or for which the loader
returns the empty marker, writes nothing, leaves the render context as it is
(no `$$__parent_template` binding is installed) and returns normally; when the
target is not a path the result is the same whatever the loader is. -/
theorem ExtendsStatement_silent (E : Externals) (depth : Nat) (templateName : String)
    (isPath : Bool) (blocks : List (String × Statement)) (values : RenderContext)
    (h : isPath = false ∨ E.LoadTemplate templateName = none) :
    Render E depth (.extendsStmt templateName isPath blocks) values = .ok ("", values) ∧
    (isPath = false → ∀ loader : String → Option Statement,
      Render { E with LoadTemplate := loader } depth
        (.extendsStmt templateName isPath blocks) values = .ok ("", values)) := by
  constructor
  · rcases h with h | h
    · simp [Render, RenderWith, ExtendsStatement.Render, h]
    · cases isPath <;> simp [Render, RenderWith, ExtendsStatement.Render, h]
  · intro hp loader
    simp [Render, RenderWith, ExtendsStatement.Render, hp]

theorem ExtendsStatement_silent_witness :
    Render demoE 1 (.extendsStmt "missing" true demoBlocks) demoValues = .ok ("", demoValues) ∧
    Render demoE 1 (.extendsStmt "base" false demoBlocks) demoValues = .ok ("", demoValues) :=
  ⟨(ExtendsStatement_silent demoE 1 "missing" true demoBlocks demoValues (Or.inr rfl)).1,
    (ExtendsStatement_silent demoE 1 "base" false demoBlocks demoValues (Or.inl rfl)).1⟩

/-- C14: `RenderBlock` of a dispatch object with registry `R` renders exactly
`R[b]` against the given context when `b` is a key of `R` (the body of the
block, when `R[b]` is a block), and otherwise writes nothing and leaves the
context as it is. -/
theorem ParentTemplateRenderer_RenderBlock_lookup (E : Externals) (depth : Nat)
    (template : Statement) (R : List (String × Statement)) (b : String)
    (values : RenderContext) :
    (∀ (dyn : Statement → Renderer) (stmt : Statement), R.lookup b = some stmt →
      ParentTemplateRenderer.RenderBlock dyn (.parentTemplateRenderer template R) b values =
        dyn stmt values) ∧
    (∀ stmt, R.lookup b = some stmt →
      ParentTemplateRenderer.RenderBlock (RenderDyn E (depth + 1))
        (.parentTemplateRenderer template R) b values = Render E depth stmt values) ∧
    (∀ name body, R.lookup b = some (.block name body) →
      ParentTemplateRenderer.RenderBlock (RenderDyn E (depth + 1))
        (.parentTemplateRenderer template R) b values = Render E depth body values) ∧
    (∀ dyn : Statement → Renderer, R.lookup b = none →
      ParentTemplateRenderer.RenderBlock dyn (.parentTemplateRenderer template R) b values =
        .ok ("", values)) := by
  refine ⟨?_, ?_, ?_, ?_⟩
  · intro dyn stmt h
    simp [ParentTemplateRenderer.RenderBlock, h]
  · intro stmt h
    simp [ParentTemplateRenderer.RenderBlock, h, RenderDyn, Render]
  · intro name body h
    simp [ParentTemplateRenderer.RenderBlock, h, RenderDyn, Render, RenderWith,
      BlockStatement.Render]
  · intro dyn h
    simp [ParentTemplateRenderer.RenderBlock, h]

theorem ParentTemplateRenderer_RenderBlock_lookup_witness :
    ParentTemplateRenderer.RenderBlock (RenderDyn demoE 1)
      (.parentTemplateRenderer (.rawText "base") demoBlocks) "title" demoValues =
      .ok ("Child title", demoValues) ∧
    ParentTemplateRenderer.RenderBlock (RenderDyn demoE 1)
      (.parentTemplateRenderer (.rawText "base") demoBlocks) "footer" demoValues =
      .ok ("", demoValues) :=
  ⟨((ParentTemplateRenderer_RenderBlock_lookup demoE 0 (.rawText "base") demoBlocks "title"
      demoValues).2.2.1 "title" (.rawText "Child title") rfl).trans rfl,
    (ParentTemplateRenderer_RenderBlock_lookup demoE 0 (.rawText "base") demoBlocks "footer"
      demoValues).2.2.2 _ rfl⟩

/-- C15: a block reference rendered where `$$__parent_template` is bound at no
level of the chain, or is bound to a value that is not a renderer reference,
writes nothing, returns normally and leaves the render context as it is. -/
theorem ParentBlockStatement_no_parent (E : Externals) (depth : Nat) (name : String)
    (isScoped : Bool) (values : RenderContext)
    (h : values.FindValue "$$__parent_template" = none ∨
      ∃ v, values.FindValue "$$__parent_template" = some v ∧ ∀ r, v ≠ .renderer r) :
    Render E depth (.parentBlock name isScoped) values = .ok ("", values) := by
  simp only [Render, RenderWith, ParentBlockStatement.Render]
  rcases h with h | ⟨v, h, hv⟩
  · simp [h]
  · rw [h]
    cases v with
    | renderer r => exact absurd rfl (hv r)
    | _ => rfl

theorem ParentBlockStatement_no_parent_witness :
    Render demoE 1 (.parentBlock "title" true) demoValues = .ok ("", demoValues) ∧
    Render demoE 1 (.parentBlock "title" false) demoBadParent = .ok ("", demoBadParent) :=
  ⟨ParentBlockStatement_no_parent demoE 1 "title" true demoValues (Or.inl rfl),
    ParentBlockStatement_no_parent demoE 1 "title" false demoBadParent
      (Or.inr ⟨.int 7, rfl, fun r h => by cases h⟩)⟩

theorem Render_ifStmt_true (E : Externals) (depth : Nat) (expr : Expression)
    (mainBody : Statement) (elseBranches : List ElseBranchStatement) (values : RenderContext)
    (val : InternalValue) (hval : E.Evaluate expr values = .ok val)
    (hb : E.BooleanEvaluator val = true) :
    Render E depth (.ifStmt expr mainBody elseBranches) values =
      Render E depth mainBody values := by
  simp only [Render, RenderWith, IfStatement.Render, hval, hb, if_true]

theorem Render_ifStmt_skip (E : Externals) (depth : Nat) (expr : Expression)
    (mainBody : Statement) (pre rest : List ElseBranchStatement) (values : RenderContext)
    (val : InternalValue) (hval : E.Evaluate expr values = .ok val)
    (hb : E.BooleanEvaluator val = false)
    (hpre : ∀ b ∈ pre, ElseBranchStatement.ShouldRender E b.expr values = .ok false) :
    Render E depth (.ifStmt expr mainBody (pre ++ rest)) values =
      IfStatement.renderElseBranches E (ElseBranchRenderers E (RenderDyn E depth) rest)
        values := by
  simp only [Render, RenderWith, IfStatement.Render, hval, hb, ElseBranchRenderers_append]
  rw [renderElseBranches_skip E values _ _ (ElseBranchRenderers_guards E _ values pre hpre)]
  simp

theorem Render_ifStmt_branch (E : Externals) (depth : Nat) (expr : Expression)
    (mainBody : Statement) (pre post : List ElseBranchStatement) (g : Option Expression)
    (body : Statement) (values : RenderContext)
    (val : InternalValue) (hval : E.Evaluate expr values = .ok val)
    (hb : E.BooleanEvaluator val = false)
    (hpre : ∀ b ∈ pre, ElseBranchStatement.ShouldRender E b.expr values = .ok false)
    (hg : ElseBranchStatement.ShouldRender E g values = .ok true) :
    Render E depth (.ifStmt expr mainBody (pre ++ .mk g body :: post)) values =
      Render E depth body values := by
  rw [Render_ifStmt_skip E depth expr mainBody pre _ values val hval hb hpre]
  simp [ElseBranchRenderers, IfStatement.renderElseBranches, hg, ElseBranchStatement.Render,
    Render]

theorem Render_setStmt_single (E : Externals) (depth : Nat) (x : String) (e : Expression)
    (values : RenderContext) (v : InternalValue) (outer : List InternalValueMap)
    (inner : InternalValueMap)
    (hv : E.Evaluate e values = .ok v) (hs : values.scopes = outer ++ [inner]) :
    Render E depth (.setStmt [x] (some e)) values =
      .ok ("", { scopes := outer ++ [inner.set x v], mapStore := values.mapStore,
                 objects := values.objects }) := by
  have hmod := modify_length_append (fun scope : InternalValueMap => scope.set x v) outer
    inner []
  simp only [Render, RenderWith, SetStatement.Render, hv, RenderContext.assign,
    RenderContext.GetCurrentScope, hs, List.length_append, List.length_singleton,
    Nat.add_sub_cancel, hmod]

/-- C17: a conditional pushes and pops no scope: the body it selects (the main
body, or the body of the first eligible else-branch) is rendered against
exactly the render context the conditional received and the conditional
returns what that render returns; so a `set` directly inside the selected body
binds its name in the scope that was innermost on entry, where the binding
remains after the conditional, and the depth of the chain is unchanged. -/
theorem IfStatement_no_scope (E : Externals) (depth : Nat) (expr : Expression)
    (mainBody : Statement) (elseBranches : List ElseBranchStatement) (values : RenderContext)
    (val : InternalValue) (hval : E.Evaluate expr values = .ok val) :
    (E.BooleanEvaluator val = true →
      Render E depth (.ifStmt expr mainBody elseBranches) values =
        Render E depth mainBody values) ∧
    (E.BooleanEvaluator val = false →
      ∀ (pre post : List ElseBranchStatement) (g : Option Expression) (body : Statement),
        elseBranches = pre ++ .mk g body :: post →
        (∀ b ∈ pre, ElseBranchStatement.ShouldRender E b.expr values = .ok false) →
        ElseBranchStatement.ShouldRender E g values = .ok true →
        Render E depth (.ifStmt expr mainBody elseBranches) values =
          Render E depth body values) ∧
    (∀ (x : String) (e : Expression) (v : InternalValue) (outer : List InternalValueMap)
        (inner : InternalValueMap),
      E.Evaluate e values = .ok v → values.scopes = outer ++ [inner] →
      (E.BooleanEvaluator val = true → mainBody = .setStmt [x] (some e) →
        ∃ values1, Render E depth (.ifStmt expr mainBody elseBranches) values =
            .ok ("", values1) ∧
          values1.scopes = outer ++ [inner.set x v] ∧
          values1.scopes.length = values.scopes.length ∧
          values1.FindValue x = some v) ∧
      (E.BooleanEvaluator val = false →
        ∀ (pre post : List ElseBranchStatement) (g : Option Expression),
          elseBranches = pre ++ .mk g (.setStmt [x] (some e)) :: post →
          (∀ b ∈ pre, ElseBranchStatement.ShouldRender E b.expr values = .ok false) →
          ElseBranchStatement.ShouldRender E g values = .ok true →
          ∃ values1, Render E depth (.ifStmt expr mainBody elseBranches) values =
              .ok ("", values1) ∧
            values1.scopes = outer ++ [inner.set x v] ∧
            values1.scopes.length = values.scopes.length ∧
            values1.FindValue x = some v)) := by
  refine ⟨fun hb => Render_ifStmt_true E depth expr mainBody elseBranches values val hval hb,
    ?_, ?_⟩
  · intro hb pre post g body hsplit hpre hg
    subst hsplit
    exact Render_ifStmt_branch E depth expr mainBody pre post g body values val hval hb hpre hg
  · intro x e v outer inner hv hs
    have hset := Render_setStmt_single E depth x e values v outer inner hv hs
    have hfind : ({ scopes := outer ++ [inner.set x v], mapStore := values.mapStore,
                    objects := values.objects } : RenderContext).FindValue x = some v := by
      simp [RenderContext.FindValue]
    constructor
    · intro hb hmain
      subst hmain
      refine ⟨_, ?_, rfl, by simp [hs], hfind⟩
      rw [Render_ifStmt_true E depth expr _ elseBranches values val hval hb, hset]
    · intro hb pre post g hsplit hpre hg
      subst hsplit
      refine ⟨_, ?_, rfl, by simp [hs], hfind⟩
      rw [Render_ifStmt_branch E depth expr mainBody pre post g _ values val hval hb hpre hg,
        hset]

theorem IfStatement_no_scope_witness :
    (Render demoE 0 demoIfSet demoScoped).map
      (fun r => (r.1, r.2.scopes.length, demoShow (r.2.FindValue "x"),
        demoShow ((r.2.scopeAt 0).find "x"))) = .ok ("", 2, "5", "outer") := by
  obtain ⟨values1, h, hs, hlen, hx⟩ :=
    ((IfStatement_no_scope demoE 0 "true" (.setStmt ["x"] (some "five"))
      [.mk none (.rawText "B")] demoScoped (.bool true) rfl).2.2 "x" "five" (.int 5)
      [InternalValueMap.empty.set "x" (.string "outer")]
      ((InternalValueMap.empty.set "x" (.string "inner")).set "y" (.string "kept"))
      rfl rfl).1 rfl rfl
  rw [demoIfSet, h]
  simp only [Except.map, hlen, hx, RenderContext.scopeAt, hs, List.singleton_append,
    List.getD_cons_zero]
  rfl

theorem ShouldRender_false (E : Externals) (g : Option Expression) (values : RenderContext)
    (h : ElseBranchStatement.ShouldRender E g values = .ok false) :
    ∃ e v, g = some e ∧ E.Evaluate e values = .ok v ∧ E.BooleanEvaluator v = false := by
  cases g with
  | none => simp [ElseBranchStatement.ShouldRender] at h
  | some e =>
    simp only [ElseBranchStatement.ShouldRender] at h
    cases hv : E.Evaluate e values with
    | error err => simp [hv] at h
    | ok v =>
      simp only [hv, Except.ok.injEq] at h
      exact ⟨e, v, rfl, hv, h⟩

theorem guardsEvaluated_skip (E : Externals) (values : RenderContext)
    (pre rest : List ElseBranchStatement)
    (hpre : ∀ b ∈ pre, ElseBranchStatement.ShouldRender E b.expr values = .ok false) :
    IfStatement.guardsEvaluated E ((pre ++ rest).map (fun b => b.expr)) values =
      pre.filterMap (fun b => b.expr) ++
        IfStatement.guardsEvaluated E (rest.map (fun b => b.expr)) values := by
  induction pre with
  | nil => rfl
  | cons b pre ih =>
    obtain ⟨e, v, hg, hv, hb⟩ := ShouldRender_false E b.expr values
      (hpre b (List.mem_cons_self _ _))
    have ih1 := ih (fun q hq => hpre q (List.mem_cons_of_mem _ hq))
    simp only [List.cons_append, List.map_cons, hg, IfStatement.guardsEvaluated, hv, hb,
      List.filterMap_cons, ih1]
    simp

theorem guardsEvaluated_stop (E : Externals) (values : RenderContext) (g : Option Expression)
    (rest : List (Option Expression))
    (hg : ElseBranchStatement.ShouldRender E g values ≠ .ok false) :
    IfStatement.guardsEvaluated E (g :: rest) values = g.toList := by
  cases g with
  | none => rfl
  | some e =>
    simp only [ElseBranchStatement.ShouldRender] at hg
    simp only [IfStatement.guardsEvaluated, Option.toList]
    cases hv : E.Evaluate e values with
    | error err => rfl
    | ok v =>
      simp only [hv] at hg
      cases hb : E.BooleanEvaluator v with
      | true => simp [hb]
      | false => simp [hb] at hg

theorem renderElseBranches_stop (E : Externals) (values : RenderContext)
    (g : Option Expression) (render : Renderer) (rest rest1 : List (Option Expression × Renderer))
    (hg : ElseBranchStatement.ShouldRender E g values ≠ .ok false) :
    IfStatement.renderElseBranches E ((g, render) :: rest) values =
      IfStatement.renderElseBranches E ((g, render) :: rest1) values := by
  simp only [IfStatement.renderElseBranches]
  cases hs : ElseBranchStatement.ShouldRender E g values with
  | error err => rfl
  | ok b =>
    cases b with
    | true => rfl
    | false => exact absurd hs hg

/-- C18: `IfStatement::Render` evaluates guards lazily.  When the condition is
true (or its evaluation throws) no guard of an else-branch is evaluated and the
result does not depend on the else-branches.  Otherwise the guards are
evaluated in list order, one evaluation per branch, up to and including the
first branch that is eligible or whose guard throws; that error is the result
when it throws; and neither the result nor the list of evaluated guards depends
on the branches after that one, whatever their guards would do. -/
theorem IfStatement_lazy_guards (E : Externals) (depth : Nat) (expr : Expression)
    (mainBody : Statement) (values : RenderContext) :
    (∀ val, E.Evaluate expr values = .ok val → E.BooleanEvaluator val = true →
      ∀ branches branches1 : List ElseBranchStatement,
        Render E depth (.ifStmt expr mainBody branches) values =
          Render E depth (.ifStmt expr mainBody branches1) values ∧
        IfStatement.evaluated E expr (branches.map (fun b => b.expr)) values = [expr]) ∧
    (∀ err, E.Evaluate expr values = .error err →
      ∀ branches : List ElseBranchStatement,
        Render E depth (.ifStmt expr mainBody branches) values = .error err ∧
        IfStatement.evaluated E expr (branches.map (fun b => b.expr)) values = [expr]) ∧
    (∀ val, E.Evaluate expr values = .ok val → E.BooleanEvaluator val = false →
      ∀ (pre post post1 : List ElseBranchStatement) (b : ElseBranchStatement),
        (∀ p ∈ pre, ElseBranchStatement.ShouldRender E p.expr values = .ok false) →
        ElseBranchStatement.ShouldRender E b.expr values ≠ .ok false →
        Render E depth (.ifStmt expr mainBody (pre ++ b :: post)) values =
          Render E depth (.ifStmt expr mainBody (pre ++ b :: post1)) values ∧
        (∀ err, ElseBranchStatement.ShouldRender E b.expr values = .error err →
          Render E depth (.ifStmt expr mainBody (pre ++ b :: post)) values = .error err) ∧
        (ElseBranchStatement.ShouldRender E b.expr values = .ok true →
          Render E depth (.ifStmt expr mainBody (pre ++ b :: post)) values =
            Render E depth b.mainBody values) ∧
        IfStatement.evaluated E expr ((pre ++ b :: post).map (fun b => b.expr)) values =
          expr :: (pre ++ [b]).filterMap (fun b => b.expr)) := by
  refine ⟨?_, ?_, ?_⟩
  · intro val hval hb branches branches1
    refine ⟨?_, ?_⟩
    · rw [Render_ifStmt_true E depth expr mainBody branches values val hval hb,
        Render_ifStmt_true E depth expr mainBody branches1 values val hval hb]
    · simp [IfStatement.evaluated, hval, hb]
  · intro err herr branches
    refine ⟨?_, ?_⟩
    · simp only [Render, RenderWith, IfStatement.Render, herr]
    · simp [IfStatement.evaluated, herr]
  · intro val hval hb pre post post1 b hpre hstop
    obtain ⟨g, body⟩ := b
    simp only [ElseBranchStatement.expr] at hstop
    refine ⟨?_, ?_, ?_, ?_⟩
    · rw [Render_ifStmt_skip E depth expr mainBody pre _ values val hval hb hpre,
        Render_ifStmt_skip E depth expr mainBody pre _ values val hval hb hpre]
      simp only [ElseBranchRenderers]
      exact renderElseBranches_stop E values g _ _ _ hstop
    · intro err herr
      rw [Render_ifStmt_skip E depth expr mainBody pre _ values val hval hb hpre]
      simp only [ElseBranchStatement.expr] at herr
      simp only [ElseBranchRenderers, IfStatement.renderElseBranches, herr]
    · intro htrue
      exact Render_ifStmt_branch E depth expr mainBody pre post g body values val hval hb hpre
        htrue
    · simp only [IfStatement.evaluated, hval, hb]
      rw [guardsEvaluated_skip E values pre _ hpre]
      simp only [List.map_cons, ElseBranchStatement.expr]
      rw [guardsEvaluated_stop E values g _ hstop]
      simp only [List.filterMap_append, List.filterMap_cons, List.filterMap_nil,
        ElseBranchStatement.expr]
      cases g <;> simp

theorem IfStatement_lazy_guards_witness :
    Render demoE 0 demoIfLazy demoValues = .ok ("A", demoValues) ∧
    IfStatement.evaluated demoE "false" [some "true", some "boom"] demoValues =
      ["false", "true"] ∧
    Render demoE 0 (.ifStmt "true" (.rawText "main") [.mk (some "boom") (.rawText "X")])
      demoValues = .ok ("main", demoValues) :=
  have h := IfStatement_lazy_guards demoE 0 "false" (.rawText "main") demoValues
  have h3 := h.2.2 (.bool false) rfl rfl [] [.mk (some "boom") (.rawText "X")] []
    (.mk (some "true") (.rawText "A")) (fun p hp => by cases hp)
    (by
      intro hc
      cases hc)
  have h1 := (IfStatement_lazy_guards demoE 0 "true" (.rawText "main") demoValues).1
    (.bool true) rfl rfl [.mk (some "boom") (.rawText "X")] []
  ⟨h3.1.trans rfl, h3.2.2.2, h1.1.trans rfl⟩

theorem RenderList_append (E : Externals) (dyn : Statement → Renderer) (a b : List Statement)
    (values : RenderContext) :
    RenderList E dyn (a ++ b) values =
      match RenderList E dyn a values with
      | .error e => .error e
      | .ok (out, values1) =>
        match RenderList E dyn b values1 with
        | .error e => .error e
        | .ok (out2, values2) => .ok (out ++ out2, values2) := by
  induction a generalizing values with
  | nil =>
    simp only [List.nil_append, RenderList]
    cases RenderList E dyn b values with
    | error e => rfl
    | ok r => simp
  | cons s a ih =>
    simp only [List.cons_append, RenderList, List.append_eq]
    cases hs : RenderWith E dyn s values with
    | error e => rfl
    | ok r =>
      obtain ⟨o1, v1⟩ := r
      simp only [ih]
      cases ha : RenderList E dyn a v1 with
      | error e => rfl
      | ok r2 =>
        obtain ⟨o2, v2⟩ := r2
        simp only
        cases hb : RenderList E dyn b v2 with
        | error e => rfl
        | ok r3 => simp [String.append_assoc]

theorem RenderList_rawText (E : Externals) (dyn : Statement → Renderer) (texts : List String)
    (values : RenderContext) :
    RenderList E dyn (texts.map Statement.rawText) values = .ok (String.join texts, values) := by
  induction texts with
  | nil => rfl
  | cons t texts ih =>
    simp only [List.map_cons, RenderList, RenderWith, ih, join_cons]

theorem installed_FindValue (template : Statement) (blocks : List (String × Statement))
    (outer : List InternalValueMap) (inner : InternalValueMap) (values : RenderContext) :
    (ParentTemplateRenderer.installed template blocks outer inner values).FindValue
        "$$__parent_template" =
      some (.renderer (.object values.objects.length)) := by
  simp [ParentTemplateRenderer.installed, RenderContext.FindValue]

theorem installed_deref (template : Statement) (blocks : List (String × Statement))
    (outer : List InternalValueMap) (inner : InternalValueMap) (values : RenderContext) :
    (ParentTemplateRenderer.installed template blocks outer inner values).deref
        (.object values.objects.length) =
      some (.parentTemplateRenderer template blocks) := by
  simp [ParentTemplateRenderer.installed, RenderContext.deref, RenderContext.objectAt,
    List.getD_eq_getElem?_getD]

theorem Render_extendsStmt_loaded (E : Externals) (depth : Nat) (templateName : String)
    (blocks : List (String × Statement)) (values : RenderContext) (template : Statement)
    (outer : List InternalValueMap) (inner : InternalValueMap)
    (hload : E.LoadTemplate templateName = some template)
    (hs : values.scopes = outer ++ [inner]) :
    Render E (depth + 1) (.extendsStmt templateName true blocks) values =
      ExtendsStatement.destroyAfter values.objects.length
        (Render E depth template
          (ParentTemplateRenderer.installed template blocks outer inner values)) := by
  have hmod := modify_length_append
    (fun scope : InternalValueMap => scope.set "$$__parent_template"
      (.renderer (.object values.objects.length))) outer inner []
  simp only [Render, RenderWith, ExtendsStatement.Render, hload, ParentTemplateRenderer.Render,
    RenderDyn, RenderContext.assign, RenderContext.GetCurrentScope, hs, List.length_append,
    List.length_singleton, Nat.add_sub_cancel, hmod, ParentTemplateRenderer.installed,
    RenderContext.newObject, ExtendsStatement.destroyAfter]
  simp

theorem Render_parentBlock_found (E : Externals) (depth : Nat) (name : String)
    (isScoped : Bool) (values : RenderContext) (ptr : RendererPtr) (template : Statement)
    (blocks : List (String × Statement)) (override : Statement)
    (hfind : values.FindValue "$$__parent_template" = some (.renderer ptr))
    (hderef : values.deref ptr = some (.parentTemplateRenderer template blocks))
    (hblock : blocks.lookup name = some override) :
    Render E (depth + 1) (.parentBlock name isScoped) values =
      match Render E depth override (ParentBlockStatement.innerContext name isScoped values) with
      | .error e => .error e
      | .ok (out, inner1) =>
        .ok (out, { values with mapStore := inner1.mapStore, objects := inner1.objects }) := by
  simp only [Render, RenderWith, ParentBlockStatement.Render, hfind, hderef,
    ParentTemplateRenderer.RenderBlock, hblock, RenderDyn, RenderContext.EnterScope,
    ParentBlockStatement.innerContext, RenderContext.ExitScope]

theorem Render_extendsStmt_override (E : Externals) (depth : Nat) (templateName : String)
    (blocks : List (String × Statement)) (values : RenderContext) (pre post : List String)
    (isScoped : Bool) (override : Statement) (outer : List InternalValueMap)
    (inner : InternalValueMap)
    (hload : E.LoadTemplate templateName = some (.composed
      (pre.map Statement.rawText ++
        .parentBlock "title" isScoped :: post.map Statement.rawText)))
    (hblock : blocks.lookup "title" = some override)
    (hs : values.scopes = outer ++ [inner]) :
    Render E (depth + 2) (.extendsStmt templateName true blocks) values =
      match Render E depth override
        (ParentBlockStatement.innerContext "title" isScoped
          (ParentTemplateRenderer.installed (.composed
            (pre.map Statement.rawText ++
              .parentBlock "title" isScoped :: post.map Statement.rawText))
            blocks outer inner values)) with
      | .error e => .error e
      | .ok (out, inner1) =>
        .ok (String.join pre ++ out ++ String.join post,
          { scopes := (ParentTemplateRenderer.installed (.composed
              (pre.map Statement.rawText ++
                .parentBlock "title" isScoped :: post.map Statement.rawText))
              blocks outer inner values).scopes,
            mapStore := inner1.mapStore,
            objects := inner1.objects.set values.objects.length none }) := by
  rw [Render_extendsStmt_loaded E (depth + 1) templateName blocks values _ outer inner hload hs]
  have hderef := installed_deref (.composed
    (pre.map Statement.rawText ++
      .parentBlock "title" isScoped :: post.map Statement.rawText)) blocks outer inner values
  have hfind := installed_FindValue (.composed
    (pre.map Statement.rawText ++
      .parentBlock "title" isScoped :: post.map Statement.rawText)) blocks outer inner values
  generalize hB : ParentTemplateRenderer.installed (.composed
    (pre.map Statement.rawText ++
      .parentBlock "title" isScoped :: post.map Statement.rawText))
    blocks outer inner values = bound at hderef hfind ⊢
  have hpb := Render_parentBlock_found E depth "title" isScoped bound _ _ blocks override hfind
    hderef hblock
  simp only [Render, RenderWith] at hpb ⊢
  simp only [RenderList_append, RenderList_rawText, RenderList, RenderWith]
  rw [hpb]
  cases hr : RenderWith E (RenderDyn E depth) override
      (ParentBlockStatement.innerContext "title" isScoped bound) with
  | error e => rfl
  | ok r =>
    obtain ⟨out, inner1⟩ := r
    simp [String.append_assoc, ExtendsStatement.destroyAfter, RenderContext.destroyObject]

/-- C12: when the parent template is literal text pieces with one block
reference `title` and the child's registry has an override for `title`,
rendering the child's `extends` writes the parent's text in document order with
the render of the override (of its body, when the override is a block) at the
place of the block reference, and nothing else. -/
theorem ExtendsStatement_override (E : Externals) (depth : Nat) (templateName : String)
    (blocks : List (String × Statement)) (values : RenderContext) (pre post : List String)
    (isScoped : Bool) (override : Statement) (outer : List InternalValueMap)
    (inner : InternalValueMap)
    (hload : E.LoadTemplate templateName = some (.composed
      (pre.map Statement.rawText ++
        .parentBlock "title" isScoped :: post.map Statement.rawText)))
    (hblock : blocks.lookup "title" = some override)
    (hs : values.scopes = outer ++ [inner]) :
    (Render E (depth + 2) (.extendsStmt templateName true blocks) values).map Prod.fst =
      (Render E depth override
        (ParentBlockStatement.innerContext "title" isScoped
          (ParentTemplateRenderer.installed (.composed
            (pre.map Statement.rawText ++
              .parentBlock "title" isScoped :: post.map Statement.rawText))
            blocks outer inner values))).map
        (fun r => String.join pre ++ r.1 ++ String.join post) ∧
    (∀ name body, override = .block name body → ∀ c,
      Render E depth override c = Render E depth body c) := by
  constructor
  · rw [Render_extendsStmt_override E depth templateName blocks values pre post isScoped
      override outer inner hload hblock hs]
    cases Render E depth override
        (ParentBlockStatement.innerContext "title" isScoped
          (ParentTemplateRenderer.installed (.composed
            (pre.map Statement.rawText ++
              .parentBlock "title" isScoped :: post.map Statement.rawText))
            blocks outer inner values)) with
    | error e => rfl
    | ok r => rfl
  · intro name body hb c
    subst hb
    simp only [Render, RenderWith, BlockStatement.Render]

theorem ExtendsStatement_override_witness :
    (Render demoLoaderE 2 demoChild demoValues).map Prod.fst =
      .ok "<h1>[Child title]</h1>" := by
  have h := (ExtendsStatement_override demoLoaderE 0 "base" demoBlocks demoValues
    ["<h1>", "["] ["]", "</h1>"] true (.block "title" (.rawText "Child title")) []
    InternalValueMap.empty rfl rfl rfl).1
  rw [demoChild, h]
  rfl

theorem ParentBlockStatement_Render_scopes (dyn : Statement → Renderer) (name : String)
    (isScoped : Bool) (values : RenderContext) (out : String) (values1 : RenderContext)
    (h : ParentBlockStatement.Render dyn name isScoped values = .ok (out, values1)) :
    values1.scopes = values.scopes := by
  unfold ParentBlockStatement.Render at h
  dsimp only at h
  split at h
  · simp only [Except.ok.injEq, Prod.mk.injEq] at h
    obtain ⟨-, rfl⟩ := h
    rfl
  · split at h
    · cases h
    · split at h
      · cases h
      · simp only [Except.ok.injEq, Prod.mk.injEq] at h
        obtain ⟨-, rfl⟩ := h
        rfl
  · simp only [Except.ok.injEq, Prod.mk.injEq] at h
    obtain ⟨-, rfl⟩ := h
    rfl

mutual
theorem RenderWith_skeleton_scopes (E : Externals) (dyn : Statement → Renderer) :
    ∀ (stmt : Statement), stmt.isSkeleton = true →
      ∀ (v : RenderContext) (out : String) (v1 : RenderContext),
        RenderWith E dyn stmt v = .ok (out, v1) → v1.scopes = v.scopes
  | .rawText _, _, v, out, v1, h => by
    simp only [RenderWith, Except.ok.injEq, Prod.mk.injEq] at h
    obtain ⟨-, rfl⟩ := h
    rfl
  | .parentBlock name isScoped, _, v, out, v1, h => by
    simp only [RenderWith] at h
    exact ParentBlockStatement_Render_scopes dyn name isScoped v out v1 h
  | .composed items, hsk, v, out, v1, h => by
    simp only [RenderWith] at h
    simp only [Statement.isSkeleton] at hsk
    exact RenderList_skeleton_scopes E dyn items hsk v out v1 h
  | .exprOutput _, hsk, _, _, _, _ => by simp [Statement.isSkeleton] at hsk
  | .forStmt _ _ _ _ _, hsk, _, _, _, _ => by simp [Statement.isSkeleton] at hsk
  | .ifStmt _ _ _, hsk, _, _, _, _ => by simp [Statement.isSkeleton] at hsk
  | .setStmt _ _, hsk, _, _, _, _ => by simp [Statement.isSkeleton] at hsk
  | .block _ _, hsk, _, _, _, _ => by simp [Statement.isSkeleton] at hsk
  | .extendsStmt _ _ _, hsk, _, _, _, _ => by simp [Statement.isSkeleton] at hsk
theorem RenderList_skeleton_scopes (E : Externals) (dyn : Statement → Renderer) :
    ∀ (items : List Statement), allSkeleton items = true →
      ∀ (v : RenderContext) (out : String) (v1 : RenderContext),
        RenderList E dyn items v = .ok (out, v1) → v1.scopes = v.scopes
  | [], _, v, out, v1, h => by
    simp only [RenderList, Except.ok.injEq, Prod.mk.injEq] at h
    obtain ⟨-, rfl⟩ := h
    rfl
  | stmt :: rest, hsk, v, out, v1, h => by
    simp only [allSkeleton, Bool.and_eq_true] at hsk
    simp only [RenderList] at h
    split at h
    · cases h
    · rename_i o1 w1 h1
      split at h
      · cases h
      · rename_i o2 w2 h2
        simp only [Except.ok.injEq, Prod.mk.injEq] at h
        obtain ⟨-, rfl⟩ := h
        rw [RenderList_skeleton_scopes E dyn rest hsk.2 _ _ _ h2,
          RenderWith_skeleton_scopes E dyn stmt hsk.1 _ _ _ h1]
end

theorem destroyAfter_ok (self : Nat) (r : RenderResult) (out : String) (values1 : RenderContext)
    (h : ExtendsStatement.destroyAfter self r = .ok (out, values1)) :
    ∃ values2, r = .ok (out, values2) ∧ values1 = values2.destroyObject self := by
  unfold ExtendsStatement.destroyAfter at h
  split at h
  · cases h
  · rename_i o w
    simp only [Except.ok.injEq, Prod.mk.injEq] at h
    obtain ⟨rfl, rfl⟩ := h
    exact ⟨w, rfl, rfl⟩

theorem deref_destroyObject (values : RenderContext) (addr : Nat) :
    (values.destroyObject addr).deref (.object addr) = none := by
  by_cases h : addr < values.objects.length <;>
    simp [RenderContext.deref, RenderContext.objectAt, RenderContext.destroyObject,
      List.getD_eq_getElem?_getD, List.getElem?_set, h]

/-- C19 (as amended): an `extends` with a path target whose load gives a
template invokes the renderer of that template once, on the render context it
received, in which the scope that was innermost on entry binds
`$$__parent_template` to the pointer to the dispatch object, which exists
during that render.  The binding is not removed, but the dispatch object is
destroyed on return: when the loaded template is made of literal text and block
references and the render returns, the chain is the chain on entry except that
this scope binds `$$__parent_template` to that pointer, and the pointer refers
to no object any more. -/
theorem ExtendsStatement_binding_stays (E : Externals) (depth : Nat) (templateName : String)
    (blocks : List (String × Statement)) (values : RenderContext) (template : Statement)
    (outer : List InternalValueMap) (inner : InternalValueMap)
    (hload : E.LoadTemplate templateName = some template)
    (hs : values.scopes = outer ++ [inner]) :
    Render E (depth + 1) (.extendsStmt templateName true blocks) values =
      ExtendsStatement.destroyAfter values.objects.length
        (Render E depth template
          (ParentTemplateRenderer.installed template blocks outer inner values)) ∧
    (ParentTemplateRenderer.installed template blocks outer inner values).scopes =
      outer ++ [inner.set "$$__parent_template" (.renderer (.object values.objects.length))] ∧
    (ParentTemplateRenderer.installed template blocks outer inner values).mapStore =
      values.mapStore ∧
    (ParentTemplateRenderer.installed template blocks outer inner values).deref
      (.object values.objects.length) = some (.parentTemplateRenderer template blocks) ∧
    values.deref (.object values.objects.length) = none ∧
    (template.isSkeleton = true → ∀ out values1,
      Render E (depth + 1) (.extendsStmt templateName true blocks) values = .ok (out, values1) →
      ∃ inner1, values1.scopes = outer ++ [inner1] ∧
        inner1.find "$$__parent_template" =
          some (.renderer (.object values.objects.length)) ∧
        (∀ name, name ≠ "$$__parent_template" → inner1.find name = inner.find name) ∧
        values1.FindValue "$$__parent_template" =
          some (.renderer (.object values.objects.length)) ∧
        values1.deref (.object values.objects.length) = none) := by
  have heq := Render_extendsStmt_loaded E depth templateName blocks values template outer inner
    hload hs
  refine ⟨heq, rfl, rfl, installed_deref template blocks outer inner values, ?_, ?_⟩
  · simp [RenderContext.deref, RenderContext.objectAt, List.getD_eq_getElem?_getD]
  intro hsk out values1 h
  rw [heq] at h
  obtain ⟨values2, h2, rfl⟩ := destroyAfter_ok _ _ _ _ h
  have hsc := RenderWith_skeleton_scopes E (RenderDyn E depth) template hsk _ _ _ h2
  simp only [ParentTemplateRenderer.installed] at hsc
  have hsc1 : (values2.destroyObject values.objects.length).scopes =
      outer ++ [inner.set "$$__parent_template" (.renderer (.object values.objects.length))] :=
    hsc
  refine ⟨_, hsc1, by simp, ?_, ?_, deref_destroyObject _ _⟩
  · intro name hname
    simp [hname]
  · simp [RenderContext.FindValue, hsc1]

theorem ExtendsStatement_binding_stays_witness :
    (Render demoLoaderE 2 demoChild demoValues).map
      (fun r => (r.1, r.2.scopes.length, demoPointer (r.2.FindValue "$$__parent_template"),
        (r.2.deref (.object 0)).isSome)) =
      .ok ("<h1>[Child title]</h1>", 1, some 0, false) := by
  have h := ExtendsStatement_binding_stays demoLoaderE 1 "base" demoBlocks demoValues demoParent
    [] InternalValueMap.empty rfl rfl
  have hm : (Render demoLoaderE 2 demoChild demoValues).map Prod.fst =
      .ok "<h1>[Child title]</h1>" := rfl
  cases hr : Render demoLoaderE 2 demoChild demoValues with
  | error e =>
    rw [hr] at hm
    cases hm
  | ok r =>
    obtain ⟨out, values1⟩ := r
    obtain ⟨inner1, hsc, -, -, hf, hd⟩ := h.2.2.2.2.2 rfl out values1 hr
    rw [hr] at hm
    simp only [Except.map, Except.ok.injEq] at hm
    have hd0 : values1.deref (.object 0) = none := hd
    have hf0 : values1.FindValue "$$__parent_template" = some (.renderer (.object 0)) := hf
    simp [Except.map, hsc, hf0, hd0, hm, demoPointer]

/-- C19 (as stated) fails.  When the `extends` has returned, the binding of
`$$__parent_template` is still there but it is not a binding to the dispatch
object: the pointer it holds refers to no object (the object was owned by the
local `renderer` and is destroyed on return).  During the render of the parent
the block reference `title` rendered the override; a block reference rendered
after the `extends` finds the binding and calls through the dead pointer. -/
theorem ExtendsStatement_binding_dangles :
    (Render demoLoaderE 2 demoChild demoValues).map
      (fun r => (r.1, demoPointer (r.2.FindValue "$$__parent_template"),
        (r.2.deref (.object 0)).isSome)) =
      .ok ("<h1>[Child title]</h1>", some 0, false) ∧
    (Render demoLoaderE 2 (.composed [demoChild, .parentBlock "title" true]) demoValues).map
      Prod.fst = .error .destroyedObject :=
  ⟨rfl, rfl⟩

theorem Neutral_refl (keep : String → Bool) (v : RenderContext) : Neutral keep v v :=
  ⟨rfl, rfl, fun _ _ => rfl⟩

theorem Neutral_trans {keep : String → Bool} {a b c : RenderContext}
    (h1 : Neutral keep a b) (h2 : Neutral keep b c) : Neutral keep a c := by
  obtain ⟨l1, d1, k1⟩ := h1
  obtain ⟨l2, d2, k2⟩ := h2
  refine ⟨l2.trans l1, d2.trans d1, ?_⟩
  intro name hk
  rw [← k1 name hk, ← l1]
  exact k2 name hk

theorem Neutral_of_scopes_eq (keep : String → Bool) {v v1 : RenderContext}
    (h : v1.scopes = v.scopes) : Neutral keep v v1 :=
  ⟨by rw [h], by rw [h], fun _ _ => by simp [RenderContext.scopeAt, h]⟩

theorem dropLast_modify {α : Type} (f : α → α) :
    ∀ (l : List α) (i : Nat), l.length ≤ i + 1 → (List.modify f i l).dropLast = l.dropLast := by
  intro l
  induction l with
  | nil => intro i _; simp
  | cons a l ih =>
    intro i hi
    cases l with
    | nil => cases i <;> simp
    | cons b t =>
      cases i with
      | zero => simp at hi
      | succ j =>
        simp only [List.length_cons, Nat.add_le_add_iff_right] at hi
        have h1 := ih j (by simpa using hi)
        have hne : List.modify f j (b :: t) ≠ [] := by
          cases j <;> simp
        simp only [List.modify_succ_cons]
        rw [List.dropLast_cons_of_ne_nil hne, h1]
        simp

theorem Neutral_assign (keep : String → Bool) (v : RenderContext) (name : String)
    (x : InternalValue) (hk : keep name = false) :
    Neutral keep v (v.assign v.GetCurrentScope name x) := by
  refine ⟨by simp [RenderContext.assign], ?_, ?_⟩
  · simp only [RenderContext.assign, RenderContext.GetCurrentScope]
    exact dropLast_modify _ _ _ (by omega)
  · intro n hn
    have hne : n ≠ name := by
      intro h; rw [h, hk] at hn; cases hn
    simp only [RenderContext.assign, RenderContext.GetCurrentScope, RenderContext.scopeAt]
    by_cases hlt : v.scopes.length - 1 < v.scopes.length
    · rw [getD_modify_self _ _ _ _ hlt]
      simp [hne]
    · rw [List.modify_eq_self (by omega)]

theorem SetStatement_Render_neutral (E : Externals) (keep : String → Bool)
    (fields : List String) (expr : Option Expression) (hsafe : ∀ f ∈ fields, keep f = false)
    (values : RenderContext) (out : String) (values1 : RenderContext)
    (h : SetStatement.Render E fields expr values = .ok (out, values1)) :
    Neutral keep values values1 := by
  have hfold : ∀ (val : InternalValue) (names : List String),
      (∀ f ∈ names, keep f = false) → ∀ (w : RenderContext),
      Neutral keep w (names.foldl
        (fun vs name => vs.assign vs.GetCurrentScope name (E.Subscript val name)) w) := by
    intro val names
    induction names with
    | nil => intro _ w; exact Neutral_refl keep w
    | cons a names ih =>
      intro hs w
      exact Neutral_trans (Neutral_assign keep w a _ (hs a (List.mem_cons_self _ _)))
        (ih (fun f hf => hs f (List.mem_cons_of_mem _ hf)) _)
  unfold SetStatement.Render at h
  split at h
  · simp only [Except.ok.injEq, Prod.mk.injEq] at h
    obtain ⟨-, rfl⟩ := h
    exact Neutral_refl _ _
  · split at h
    · cases h
    · split at h
      · simp only [Except.ok.injEq, Prod.mk.injEq] at h
        obtain ⟨-, rfl⟩ := h
        exact Neutral_assign keep _ _ _ (hsafe _ (List.mem_singleton.mpr rfl))
      · simp only [Except.ok.injEq, Prod.mk.injEq] at h
        obtain ⟨-, rfl⟩ := h
        exact hfold _ _ hsafe _

theorem mainLoop_inv (E : Externals) (body : Renderer) (vars : List String)
    (s : ForStatement.LoopSetup) (P : RenderContext → Prop)
    (hE : ∀ i w, P w → P (ForStatement.enterIteration E vars s i w))
    (hB : ∀ c out w1, P c → body c = .ok (out, w1) → P w1) :
    ∀ (steps itemIdx : Nat) (w : RenderContext) (out : String) (w1 : RenderContext),
      ForStatement.mainLoop E body vars s steps itemIdx w = .ok (out, w1) → P w → P w1 := by
  intro steps
  induction steps with
  | zero =>
    intro itemIdx w out w1 h hw
    simp only [ForStatement.mainLoop, Except.ok.injEq, Prod.mk.injEq] at h
    obtain ⟨-, rfl⟩ := h
    exact hw
  | succ steps ih =>
    intro itemIdx w out w1 h hw
    simp only [ForStatement.mainLoop] at h
    split at h
    · cases h
    · rename_i out1 v1 hbody
      split at h
      · cases h
      · rename_i rest v2 hrest
        simp only [Except.ok.injEq, Prod.mk.injEq] at h
        obtain ⟨-, rfl⟩ := h
        exact ih _ _ _ _ hrest (hB _ _ _ (hE _ _ hw) hbody)

theorem prepare_inl (E : Externals) (vars : List String) (value : Expression)
    (ifExpr : Option Expression) (values w : RenderContext)
    (h : ForStatement.prepare E vars value ifExpr values = .ok (.inl w)) :
    ∃ v, E.Evaluate value values = .ok v ∧ E.ConvertToList v = none := by
  unfold ForStatement.prepare at h
  cases hv : E.Evaluate value values with
  | error e => simp [hv] at h
  | ok v =>
    cases hS : E.ConvertToList v with
    | none => exact ⟨v, rfl, hS⟩
    | some S =>
      simp only [hv, hS] at h
      split at h <;> cases h

theorem ForStatement_Render_restores (E : Externals) (body : Renderer)
    (elseBody : Option Renderer) (vars : List String) (value : Expression)
    (ifExpr : Option Expression) (values : RenderContext)
    (hb : ∀ v out v1, body v = .ok (out, v1) →
      v1.scopes.length = v.scopes.length ∧ v1.scopes.dropLast = v.scopes.dropLast)
    (he : ∀ r, elseBody = some r → ∀ v out v1, r v = .ok (out, v1) →
      v1.scopes.length = v.scopes.length ∧ v1.scopes.dropLast = v.scopes.dropLast)
    (hconv : ∀ v, E.Evaluate value values = .ok v → E.ConvertToList v ≠ none)
    (out : String) (values1 : RenderContext)
    (h : ForStatement.Render E body elseBody vars value ifExpr values = .ok (out, values1)) :
    values1.scopes = values.scopes := by
  unfold ForStatement.Render at h
  split at h
  · cases h
  · rename_i w hp
    obtain ⟨v, hv, hS⟩ := prepare_inl E vars value ifExpr values w hp
    exact absurd hS (hconv v hv)
  · rename_i s hp
    obtain ⟨hidx, haddr, hval⟩ := prepare_inr E vars value ifExpr values s hp
    have hP0 : s.values.scopes.length = values.scopes.length + 1 ∧
        s.values.scopes.dropLast = values.scopes := by
      rw [hval]; simp [ForStatement.loopStart]
    have hE : ∀ i w, (w.scopes.length = values.scopes.length + 1 ∧
        w.scopes.dropLast = values.scopes) →
        ((ForStatement.enterIteration E vars s i w).scopes.length = values.scopes.length + 1 ∧
          (ForStatement.enterIteration E vars s i w).scopes.dropLast = values.scopes) := by
      intro i w hw
      rw [enterIteration_scopes, List.length_modify, dropLast_modify _ _ _ (by omega)]
      exact hw
    have hB : ∀ c o w1, (c.scopes.length = values.scopes.length + 1 ∧
        c.scopes.dropLast = values.scopes) → body c = .ok (o, w1) →
        (w1.scopes.length = values.scopes.length + 1 ∧ w1.scopes.dropLast = values.scopes) := by
      intro c o w1 hc hbody
      obtain ⟨h1, h2⟩ := hb _ _ _ hbody
      exact ⟨h1.trans hc.1, h2.trans hc.2⟩
    split at h
    · cases h
    · rename_i out1 w1 hloop
      have hw1 := mainLoop_inv E body vars s _ hE hB _ _ _ _ _ hloop hP0
      dsimp only at h
      split at h
      · rename_i r hr
        split at h
        · cases h
        · rename_i out2 w2 hr2
          simp only [Except.ok.injEq, Prod.mk.injEq] at h
          obtain ⟨-, rfl⟩ := h
          have hre : elseBody = some r := by
            split at hr
            · exact hr
            · cases hr
          obtain ⟨-, h2⟩ := he r hre _ _ _ hr2
          simp only [RenderContext.ExitScope]
          exact h2.trans hw1.2
      · simp only [Except.ok.injEq, Prod.mk.injEq] at h
        obtain ⟨-, rfl⟩ := h
        exact hw1.2

theorem IfStatement_Render_neutral (E : Externals) (keep : String → Bool) (expr : Expression)
    (mainBody : Renderer) (elseBranches : List (Option Expression × Renderer))
    (hb : ∀ v out v1, mainBody v = .ok (out, v1) → Neutral keep v v1)
    (he : ∀ p ∈ elseBranches, ∀ v out v1, p.2 v = .ok (out, v1) → Neutral keep v v1)
    (values : RenderContext) (out : String) (values1 : RenderContext)
    (h : IfStatement.Render E expr mainBody elseBranches values = .ok (out, values1)) :
    Neutral keep values values1 := by
  unfold IfStatement.Render at h
  split at h
  · cases h
  · split at h
    · exact hb _ _ _ h
    · clear hb
      induction elseBranches with
      | nil =>
        simp only [IfStatement.renderElseBranches, Except.ok.injEq, Prod.mk.injEq] at h
        obtain ⟨-, rfl⟩ := h
        exact Neutral_refl _ _
      | cons p rest ih =>
        obtain ⟨g, render⟩ := p
        simp only [IfStatement.renderElseBranches] at h
        split at h
        · cases h
        · exact he (g, render) (List.mem_cons_self _ _) _ _ _ h
        · exact ih (fun q hq => he q (List.mem_cons_of_mem _ hq)) h

mutual
theorem RenderWith_neutral (E : Externals) (dyn : Statement → Renderer) :
    ∀ (stmt : Statement) (keep : String → Bool), stmt.ScopeSafe E keep →
      ∀ (v : RenderContext) (out : String) (v1 : RenderContext),
        RenderWith E dyn stmt v = .ok (out, v1) → Neutral keep v v1
  | .rawText _, keep, _, v, out, v1, h => by
    simp only [RenderWith, Except.ok.injEq, Prod.mk.injEq] at h
    obtain ⟨-, rfl⟩ := h
    exact Neutral_refl _ _
  | .exprOutput _, keep, _, v, out, v1, h => by
    simp only [RenderWith] at h
    split at h
    · cases h
    · simp only [Except.ok.injEq, Prod.mk.injEq] at h
      obtain ⟨-, rfl⟩ := h
      exact Neutral_refl _ _
  | .composed items, keep, hs, v, out, v1, h => by
    simp only [RenderWith] at h
    simp only [Statement.ScopeSafe] at hs
    exact RenderList_neutral E dyn items keep hs v out v1 h
  | .setStmt fields expr, keep, hs, v, out, v1, h => by
    simp only [RenderWith] at h
    simp only [Statement.ScopeSafe] at hs
    exact SetStatement_Render_neutral E keep fields expr hs v out v1 h
  | .ifStmt expr mainBody elseBranches, keep, hs, v, out, v1, h => by
    simp only [RenderWith] at h
    simp only [Statement.ScopeSafe] at hs
    exact IfStatement_Render_neutral E keep expr _ _
      (RenderWith_neutral E dyn mainBody keep hs.1)
      (ElseBranchRenderers_neutral E dyn elseBranches keep hs.2) v out v1 h
  | .forStmt vars value ifExpr mainBody elseBody, keep, hs, v, out, v1, h => by
    simp only [RenderWith] at h
    simp only [Statement.ScopeSafe] at hs
    refine Neutral_of_scopes_eq keep
      (ForStatement_Render_restores E _ _ vars value ifExpr v ?_ ?_ (fun x hx => hs.1 v x hx)
        out v1 h)
    · intro w o w1 hw
      have := RenderWith_neutral E dyn mainBody (fun _ => false) hs.2.1 w o w1 hw
      exact ⟨this.1, this.2.1⟩
    · intro r hr w o w1 hw
      have := RenderOpt_neutral E dyn elseBody (fun _ => false) hs.2.2 r hr w o w1 hw
      exact ⟨this.1, this.2.1⟩
  | .parentBlock _ _, keep, hs, _, _, _, _ => by simp [Statement.ScopeSafe] at hs
  | .block _ _, keep, hs, _, _, _, _ => by simp [Statement.ScopeSafe] at hs
  | .extendsStmt _ _ _, keep, hs, _, _, _, _ => by simp [Statement.ScopeSafe] at hs
theorem RenderOpt_neutral (E : Externals) (dyn : Statement → Renderer) :
    ∀ (o : Option Statement) (keep : String → Bool), ScopeSafeOpt E o keep →
      ∀ (r : Renderer), RenderOpt E dyn o = some r →
        ∀ (v : RenderContext) (out : String) (v1 : RenderContext),
          r v = .ok (out, v1) → Neutral keep v v1
  | none, _, _, r, hr => by simp [RenderOpt] at hr
  | some stmt, keep, hs, r, hr => by
    simp only [RenderOpt, Option.some.injEq] at hr
    subst hr
    simp only [ScopeSafeOpt] at hs
    exact RenderWith_neutral E dyn stmt keep hs
theorem RenderList_neutral (E : Externals) (dyn : Statement → Renderer) :
    ∀ (items : List Statement) (keep : String → Bool), ScopeSafeList E items keep →
      ∀ (v : RenderContext) (out : String) (v1 : RenderContext),
        RenderList E dyn items v = .ok (out, v1) → Neutral keep v v1
  | [], keep, _, v, out, v1, h => by
    simp only [RenderList, Except.ok.injEq, Prod.mk.injEq] at h
    obtain ⟨-, rfl⟩ := h
    exact Neutral_refl _ _
  | stmt :: rest, keep, hs, v, out, v1, h => by
    simp only [ScopeSafeList] at hs
    simp only [RenderList] at h
    split at h
    · cases h
    · rename_i o1 w1 h1
      split at h
      · cases h
      · rename_i o2 w2 h2
        simp only [Except.ok.injEq, Prod.mk.injEq] at h
        obtain ⟨-, rfl⟩ := h
        exact Neutral_trans (RenderWith_neutral E dyn stmt keep hs.1 _ _ _ h1)
          (RenderList_neutral E dyn rest keep hs.2 _ _ _ h2)
theorem ElseBranchRenderers_neutral (E : Externals) (dyn : Statement → Renderer) :
    ∀ (branches : List ElseBranchStatement) (keep : String → Bool),
      ScopeSafeBranches E branches keep →
      ∀ p ∈ ElseBranchRenderers E dyn branches,
        ∀ (v : RenderContext) (out : String) (v1 : RenderContext),
          p.2 v = .ok (out, v1) → Neutral keep v v1
  | [], _, _, p, hp => by simp [ElseBranchRenderers] at hp
  | .mk expr mainBody :: rest, keep, hs, p, hp => by
    simp only [ScopeSafeBranches] at hs
    simp only [ElseBranchRenderers, List.mem_cons] at hp
    rcases hp with rfl | hp
    · exact RenderWith_neutral E dyn mainBody keep hs.1
    · exact ElseBranchRenderers_neutral E dyn rest keep hs.2 p hp
end

theorem ExtendsStatement_Render_neutral (E : Externals) (dyn : Statement → Renderer)
    (keep : String → Bool) (templateName : String) (isPath : Bool)
    (blocks : List (String × Statement))
    (hsafe : isPath = true → ∀ template, E.LoadTemplate templateName = some template →
      keep "$$__parent_template" = false ∧
        ∀ v out v1, dyn template v = .ok (out, v1) → Neutral keep v v1)
    (values : RenderContext) (out : String) (values1 : RenderContext)
    (h : ExtendsStatement.Render E dyn templateName isPath blocks values = .ok (out, values1)) :
    Neutral keep values values1 := by
  unfold ExtendsStatement.Render at h
  split at h
  · simp only [Except.ok.injEq, Prod.mk.injEq] at h
    obtain ⟨-, rfl⟩ := h
    exact Neutral_refl _ _
  · rename_i hp
    split at h
    · simp only [Except.ok.injEq, Prod.mk.injEq] at h
      obtain ⟨-, rfl⟩ := h
      exact Neutral_refl _ _
    · rename_i template hload
      have hpath : isPath = true := by simpa using hp
      obtain ⟨hk, hdyn⟩ := hsafe hpath template hload
      simp only [RenderContext.newObject] at h
      split at h
      · cases h
      · rename_i out1 values2 hr
        simp only [Except.ok.injEq, Prod.mk.injEq] at h
        obtain ⟨-, rfl⟩ := h
        unfold ParentTemplateRenderer.Render at hr
        have h1 := Neutral_trans (Neutral_assign keep _ _ _ hk) (hdyn _ _ _ hr)
        exact h1

mutual
theorem RenderWith_bodySafe (E : Externals) (dyn : Statement → Renderer)
    (loaded : Statement → (String → Bool) → Prop)
    (hd : ∀ stmt keep, loaded stmt keep →
      ∀ v out v1, dyn stmt v = .ok (out, v1) → Neutral keep v v1) :
    ∀ (stmt : Statement) (keep : String → Bool), stmt.BodySafe E loaded keep →
      ∀ (v : RenderContext) (out : String) (v1 : RenderContext),
        RenderWith E dyn stmt v = .ok (out, v1) → Neutral keep v v1
  | .rawText _, keep, _, v, out, v1, h => by
    simp only [RenderWith, Except.ok.injEq, Prod.mk.injEq] at h
    obtain ⟨-, rfl⟩ := h
    exact Neutral_refl _ _
  | .exprOutput _, keep, _, v, out, v1, h => by
    simp only [RenderWith] at h
    split at h
    · cases h
    · simp only [Except.ok.injEq, Prod.mk.injEq] at h
      obtain ⟨-, rfl⟩ := h
      exact Neutral_refl _ _
  | .composed items, keep, hs, v, out, v1, h => by
    simp only [RenderWith] at h
    simp only [Statement.BodySafe] at hs
    exact RenderList_bodySafe E dyn loaded hd items keep hs v out v1 h
  | .setStmt fields expr, keep, hs, v, out, v1, h => by
    simp only [RenderWith] at h
    simp only [Statement.BodySafe] at hs
    rcases hs with rfl | hs
    · simp only [SetStatement.Render, Except.ok.injEq, Prod.mk.injEq] at h
      obtain ⟨-, rfl⟩ := h
      exact Neutral_refl _ _
    · exact SetStatement_Render_neutral E keep fields expr hs v out v1 h
  | .ifStmt expr mainBody elseBranches, keep, hs, v, out, v1, h => by
    simp only [RenderWith] at h
    simp only [Statement.BodySafe] at hs
    exact IfStatement_Render_neutral E keep expr _ _
      (RenderWith_bodySafe E dyn loaded hd mainBody keep hs.1)
      (ElseBranchRenderers_bodySafe E dyn loaded hd elseBranches keep hs.2) v out v1 h
  | .forStmt vars value ifExpr mainBody elseBody, keep, hs, v, out, v1, h => by
    simp only [RenderWith] at h
    simp only [Statement.BodySafe] at hs
    refine Neutral_of_scopes_eq keep
      (ForStatement_Render_restores E _ _ vars value ifExpr v ?_ ?_ (fun x hx => hs.1 v x hx)
        out v1 h)
    · intro w o w1 hw
      have := RenderWith_bodySafe E dyn loaded hd mainBody (fun _ => false) hs.2.1 w o w1 hw
      exact ⟨this.1, this.2.1⟩
    · intro r hr w o w1 hw
      have := RenderOpt_bodySafe E dyn loaded hd elseBody (fun _ => false) hs.2.2 r hr w o w1 hw
      exact ⟨this.1, this.2.1⟩
  | .parentBlock name isScoped, keep, _, v, out, v1, h => by
    simp only [RenderWith] at h
    exact Neutral_of_scopes_eq keep
      (ParentBlockStatement_Render_scopes dyn name isScoped v out v1 h)
  | .block _ mainBody, keep, hs, v, out, v1, h => by
    simp only [RenderWith, BlockStatement.Render] at h
    simp only [Statement.BodySafe] at hs
    exact RenderWith_bodySafe E dyn loaded hd mainBody keep hs v out v1 h
  | .extendsStmt templateName isPath blocks, keep, hs, v, out, v1, h => by
    simp only [RenderWith] at h
    simp only [Statement.BodySafe] at hs
    exact ExtendsStatement_Render_neutral E dyn keep templateName isPath blocks
      (fun hp template hload => ⟨(hs hp template hload).1,
        hd template keep (hs hp template hload).2⟩) v out v1 h
theorem RenderOpt_bodySafe (E : Externals) (dyn : Statement → Renderer)
    (loaded : Statement → (String → Bool) → Prop)
    (hd : ∀ stmt keep, loaded stmt keep →
      ∀ v out v1, dyn stmt v = .ok (out, v1) → Neutral keep v v1) :
    ∀ (o : Option Statement) (keep : String → Bool), BodySafeOpt E loaded o keep →
      ∀ (r : Renderer), RenderOpt E dyn o = some r →
        ∀ (v : RenderContext) (out : String) (v1 : RenderContext),
          r v = .ok (out, v1) → Neutral keep v v1
  | none, _, _, r, hr => by simp [RenderOpt] at hr
  | some stmt, keep, hs, r, hr => by
    simp only [RenderOpt, Option.some.injEq] at hr
    subst hr
    simp only [BodySafeOpt] at hs
    exact RenderWith_bodySafe E dyn loaded hd stmt keep hs
theorem RenderList_bodySafe (E : Externals) (dyn : Statement → Renderer)
    (loaded : Statement → (String → Bool) → Prop)
    (hd : ∀ stmt keep, loaded stmt keep →
      ∀ v out v1, dyn stmt v = .ok (out, v1) → Neutral keep v v1) :
    ∀ (items : List Statement) (keep : String → Bool), BodySafeList E loaded items keep →
      ∀ (v : RenderContext) (out : String) (v1 : RenderContext),
        RenderList E dyn items v = .ok (out, v1) → Neutral keep v v1
  | [], keep, _, v, out, v1, h => by
    simp only [RenderList, Except.ok.injEq, Prod.mk.injEq] at h
    obtain ⟨-, rfl⟩ := h
    exact Neutral_refl _ _
  | stmt :: rest, keep, hs, v, out, v1, h => by
    simp only [BodySafeList] at hs
    simp only [RenderList] at h
    split at h
    · cases h
    · rename_i o1 w1 h1
      split at h
      · cases h
      · rename_i o2 w2 h2
        simp only [Except.ok.injEq, Prod.mk.injEq] at h
        obtain ⟨-, rfl⟩ := h
        exact Neutral_trans (RenderWith_bodySafe E dyn loaded hd stmt keep hs.1 _ _ _ h1)
          (RenderList_bodySafe E dyn loaded hd rest keep hs.2 _ _ _ h2)
theorem ElseBranchRenderers_bodySafe (E : Externals) (dyn : Statement → Renderer)
    (loaded : Statement → (String → Bool) → Prop)
    (hd : ∀ stmt keep, loaded stmt keep →
      ∀ v out v1, dyn stmt v = .ok (out, v1) → Neutral keep v v1) :
    ∀ (branches : List ElseBranchStatement) (keep : String → Bool),
      BodySafeBranches E loaded branches keep →
      ∀ p ∈ ElseBranchRenderers E dyn branches,
        ∀ (v : RenderContext) (out : String) (v1 : RenderContext),
          p.2 v = .ok (out, v1) → Neutral keep v v1
  | [], _, _, p, hp => by simp [ElseBranchRenderers] at hp
  | .mk expr mainBody :: rest, keep, hs, p, hp => by
    simp only [BodySafeBranches] at hs
    simp only [ElseBranchRenderers, List.mem_cons] at hp
    rcases hp with rfl | hp
    · exact RenderWith_bodySafe E dyn loaded hd mainBody keep hs.1
    · exact ElseBranchRenderers_bodySafe E dyn loaded hd rest keep hs.2 p hp
end

end jinja2
